import Mathlib

/-!
A shallow embedding of the WikiSQL front end (`wikidata_sql/parser.py` and
`wikidata_sql/sparql.py`): the parser from query text to the `WikiQuery`
intermediate representation, and the compiler from that IR to SPARQL text
plus a column map.  Text is modelled as `List Char` / `String`; the Python
regular expressions are embedded as explicit scanning functions that follow
the leftmost-match and backtracking behaviour of `re`.  All definitions are
structurally recursive (scanning loops that shrink a buffer by more than one
character use an explicit fuel argument), so every function evaluates by
kernel reduction.
-/

namespace WikiSql

/-- ASCII approximation of Python's whitespace class `\s`. -/
def isSpaceCh (c : Char) : Bool :=
  c = ' ' || c = '\t' || c = '\n' || c = '\r' || c = '\x0b' || c = '\x0c'

/-- ASCII approximation of Python's word-character class `\w`. -/
def isWordCh (c : Char) : Bool :=
  c.isAlpha || c.isDigit || c = '_'

/-- Python `str.upper()` (ASCII). -/
def upperStr (s : String) : String :=
  String.mk (s.data.map Char.toUpper)

/-- Python `str.lower()` (ASCII). -/
def lowerStr (s : String) : String :=
  String.mk (s.data.map Char.toLower)

/-- Python `str.strip()` on a character list. -/
def stripChars (cs : List Char) : List Char :=
  ((cs.dropWhile isSpaceCh).reverse.dropWhile isSpaceCh).reverse

/-- Python `str.strip()`. -/
def stripStr (s : String) : String :=
  String.mk (stripChars s.data)

/-- Case-insensitive literal match: the pattern is given in upper case;
returns the rest of the input after the pattern when it matches. -/
def ciPrefix : List Char → List Char → Option (List Char)
  | [], cs => some cs
  | p :: ps, c :: cs => if c.toUpper = p then ciPrefix ps cs else none
  | _ :: _, [] => none

/-- A digit run parsed as a natural number (Python `int` on a `\d+` group). -/
def natOfDigits (ds : List Char) : Nat :=
  ds.foldl (fun n c => n * 10 + (c.toNat - '0'.toNat)) 0

/-- `$` of Python `re` without `MULTILINE`: end of input, or just before a
single final newline. -/
def atEnd (cs : List Char) : Bool :=
  cs = [] || cs = ['\n']

/-- Word-boundary test for `\b` before a word character: start of input or a
preceding non-word character. -/
def isBoundary : Option Char → Bool
  | none => true
  | some p => !(isWordCh p)

/-- Backtracking over a greedy `\s+` that precedes a lazy group: try the
longest whitespace run first, then shift trailing whitespace characters into
the scanned text one at a time (mirrors `re` backtracking in patterns such as
`SELECT\s+(.+?)\s+FROM\s+`).  The first argument is the reversed whitespace
run, the second the text after it. -/
def wsBacktrack {α : Type} (f : List Char → Option α) :
    List Char → List Char → Option α
  | [], _ => none
  | w :: ws, tail =>
    match f tail with
    | some r => some r
    | none => wsBacktrack f ws (w :: tail)

/-- Lazy scan for `(.+?)` followed by a terminator: grow the group one
character at a time (never across a newline, since `.` does not match `\n`)
and stop at the first position where the terminator matches. -/
def lazyScanO {β : Type} (term : List Char → Option β) :
    List Char → List Char → Option (List Char × β)
  | _, [] => none
  | acc, c :: rest =>
    if c = '\n' then none
    else
      match term rest with
      | some b => some (acc ++ [c], b)
      | none => lazyScanO term (acc ++ [c]) rest

-- ---------------------------------------------------------------------------
-- IR types (parser.py)
-- ---------------------------------------------------------------------------

/-- `ColumnKind` of `parser.py`. -/
inductive ColumnKind where
  | star
  | label
  | qid
  | item
  | item_qid
deriving DecidableEq, Repr

/-- `Column` of `parser.py`. -/
structure Column where
  kind : ColumnKind
  pid : Option String := none
  alias_ : Option String := none
deriving DecidableEq, Repr

/-- `Op` of `parser.py`. -/
inductive Op where
  | eq
  | neq
  | lt
  | gt
  | lte
  | gte
deriving DecidableEq, Repr

/-- The `value` string of the Python `Op` enum. -/
def opStr : Op → String
  | .eq => "="
  | .neq => "!="
  | .lt => "<"
  | .gt => ">"
  | .lte => "<="
  | .gte => ">="

/-- `Condition` of `parser.py`. -/
structure Condition where
  column : String
  op : Op
  value : String
  is_qid_col : Bool
  pid : String
deriving DecidableEq, Repr

/-- `WikiTable` of `parser.py`. -/
structure WikiTable where
  property : String
  qid : String
  alias_ : Option String := none
deriving DecidableEq, Repr

/-- `JoinClause` of `parser.py`. -/
structure JoinClause where
  table : WikiTable
  on_left : String
  on_right : String
deriving DecidableEq, Repr

/-- `WikiQuery` of `parser.py`. -/
structure WikiQuery where
  columns : List Column
  table : WikiTable
  joins : List JoinClause := []
  conditions : List Condition := []
  limit : Option Nat := none
  order_by : List String := []
deriving DecidableEq, Repr

/-- The distinct `ValueError` raise sites of `parser.py`, carrying the
offending token or clause text. -/
inductive ParseError where
  | malformedQuery (sql : String)
  | invalidTableReference (token : String)
  | unknownColumn (token : String)
  | noOperator (text : String)
  | invalidConditionColumn (column : String)
deriving DecidableEq, Repr

-- ---------------------------------------------------------------------------
-- Condition parsing (`OP_RE`, `_parse_condition`)
-- ---------------------------------------------------------------------------

/-- One alternative of `OP_RE` tried at a position, in the alternation order
`!=, <=, >=, <, >, =`; returns the operator and the text after it. -/
def matchOpAt : List Char → Option (Op × List Char)
  | c :: d :: rest =>
    if c = '!' ∧ d = '=' then some (.neq, rest)
    else if c = '<' ∧ d = '=' then some (.lte, rest)
    else if c = '>' ∧ d = '=' then some (.gte, rest)
    else if c = '<' then some (.lt, d :: rest)
    else if c = '>' then some (.gt, d :: rest)
    else if c = '=' then some (.eq, d :: rest)
    else none
  | [c] =>
    if c = '<' then some (.lt, [])
    else if c = '>' then some (.gt, [])
    else if c = '=' then some (.eq, [])
    else none
  | [] => none

/-- `OP_RE.search`: the leftmost position where an operator alternative
matches; returns the text before the operator, the operator, and the text
after it. -/
def findOp : List Char → Option (List Char × Op × List Char)
  | [] => none
  | c :: rest =>
    match matchOpAt (c :: rest) with
    | some (op, after) => some ([], op, after)
    | none =>
      match findOp rest with
      | some (pre, op, after) => some (c :: pre, op, after)
      | none => none

/-- Quote stripping of `_parse_condition`: remove a leading and trailing
quote when the value both starts and ends with the same quote character. -/
def stripQuotes (cs : List Char) : List Char :=
  if (cs.head? = some '\x27' ∧ cs.getLast? = some '\x27') ∨
     (cs.head? = some '\x22' ∧ cs.getLast? = some '\x22') then
    (cs.drop 1).dropLast
  else cs

/-- `^P\d+$` (case-sensitive, as in the validation of `_parse_condition`). -/
def isPidUpper (cs : List Char) : Bool :=
  match cs with
  | c :: ds => c = 'P' && (!ds.isEmpty && ds.all Char.isDigit)
  | [] => false

/-- `_parse_condition` of `parser.py`. -/
def parseCondition (text : String) : Except ParseError Condition :=
  let t := stripChars text.data
  match findOp t with
  | none => .error (.noOperator (String.mk t))
  | some (pre, op, post) =>
    let colRaw := String.mk (stripChars pre)
    let valRaw := stripChars post
    let value := String.mk (stripQuotes valRaw)
    let colUpper := upperStr colRaw
    let (pid, isQid) :=
      if colUpper.data.reverse.take 4 = ['D', 'I', 'Q', '_'] then
        (String.mk (colUpper.data.take (colUpper.data.length - 4)), true)
      else (colUpper, false)
    if isPidUpper pid.data then
      .ok { column := colRaw, op := op, value := value, is_qid_col := isQid, pid := pid }
    else .error (.invalidConditionColumn colRaw)

-- ---------------------------------------------------------------------------
-- Table and column tokens (`TABLE_RE`, `COLUMN_RE`)
-- ---------------------------------------------------------------------------

/-- `(Q\d+)$` (case-insensitive): the whole remaining token is a QID. -/
def matchQidEnd : List Char → Option (List Char)
  | [] => none
  | c :: rest =>
    if c = 'Q' ∨ c = 'q' then
      let ds := rest.takeWhile Char.isDigit
      let tail := rest.dropWhile Char.isDigit
      if !ds.isEmpty && tail.isEmpty then some (c :: ds) else none
    else none

/-- `_parse_table` of `parser.py` (`TABLE_RE`, missing prefix defaulting the
property to `P31`, case normalisation to upper case). -/
def parseTable (token : String) : Except ParseError WikiTable :=
  let cs := token.data
  let prefixed : Option (List Char × List Char) :=
    match cs with
    | [] => none
    | c :: rest =>
      if c = 'P' ∨ c = 'p' then
        let ds := rest.takeWhile Char.isDigit
        let tail := rest.dropWhile Char.isDigit
        match tail with
        | ':' :: rest2 => if !ds.isEmpty then some (c :: ds, rest2) else none
        | _ => none
      else none
  match prefixed with
  | some (prop, rest) =>
    match matchQidEnd rest with
    | some qid =>
      .ok { property := upperStr (String.mk prop), qid := upperStr (String.mk qid) }
    | none => .error (.invalidTableReference token)
  | none =>
    match matchQidEnd cs with
    | some qid => .ok { property := "P31", qid := upperStr (String.mk qid) }
    | none => .error (.invalidTableReference token)

/-- `COLUMN_RE` (`^(P\d+?)(_qid)?$`, case-insensitive): the uppercased pid
and whether the `_qid` suffix was present. -/
def matchColumnRe (cs : List Char) : Option (String × Bool) :=
  match cs with
  | [] => none
  | c :: rest =>
    if c = 'P' ∨ c = 'p' then
      let ds := rest.takeWhile Char.isDigit
      let tail := rest.dropWhile Char.isDigit
      if ds.isEmpty then none
      else if tail.isEmpty then some (upperStr (String.mk (c :: ds)), false)
      else if tail.map Char.toUpper = ['_', 'Q', 'I', 'D'] then
        some (upperStr (String.mk (c :: ds)), true)
      else none
    else none

/-- `\s+AS\s+(\w+)` tried at a position (the text after the lazy group of the
column alias pattern); returns the alias word. -/
def matchAsAt (cs : List Char) : Option String :=
  let ws := cs.takeWhile isSpaceCh
  let r1 := cs.dropWhile isSpaceCh
  if ws.isEmpty then none
  else
    match ciPrefix ['A', 'S'] r1 with
    | some r2 =>
      let ws2 := r2.takeWhile isSpaceCh
      let r3 := r2.dropWhile isSpaceCh
      if ws2.isEmpty then none
      else
        let w := r3.takeWhile isWordCh
        if w.isEmpty then none else some (String.mk w)
    | none => none

/-- `_parse_column` of `parser.py`. -/
def parseColumn (raw : String) : Except ParseError Column :=
  let r := stripStr raw
  if r = "*" then .ok { kind := .star }
  else
    let split := lazyScanO matchAsAt [] r.data
    let body :=
      match split with
      | some (g, _) => stripStr (String.mk g)
      | none => r
    let al : Option String :=
      match split with
      | some (_, a) => some a
      | none => none
    if lowerStr body = "item_qid" then .ok { kind := .item_qid, alias_ := al }
    else if lowerStr body = "item" then .ok { kind := .item, alias_ := al }
    else
      match matchColumnRe body.data with
      | some (pid, true) => .ok { kind := .qid, pid := some pid, alias_ := al }
      | some (pid, false) => .ok { kind := .label, pid := some pid, alias_ := al }
      | none => .error (.unknownColumn body)

-- ---------------------------------------------------------------------------
-- `_split_respecting_quotes`
-- ---------------------------------------------------------------------------

/-- Worker for `_split_respecting_quotes`: state is the open quote (if any)
and the reversed current part. -/
def srqAux : Option Char → List Char → List Char → List (List Char)
  | _, cur, [] => if cur.isEmpty then [] else [cur.reverse]
  | inq, cur, c :: rest =>
    if (c = '\x27' ∨ c = '\x22') ∧ inq = none then srqAux (some c) (c :: cur) rest
    else if some c = inq then srqAux none (c :: cur) rest
    else if c = ',' ∧ inq = none then cur.reverse :: srqAux none [] rest
    else srqAux inq (c :: cur) rest

/-- `_split_respecting_quotes` of `parser.py` (delimiter `,`). -/
def splitRespectingQuotes (cs : List Char) : List (List Char) :=
  srqAux none [] cs

-- ---------------------------------------------------------------------------
-- `parse`: SELECT/FROM extraction
-- ---------------------------------------------------------------------------

/-- `\s+FROM\s+` at a position (terminator of the SELECT list's lazy group);
returns the text after the whole terminator. -/
def fromTermAt (cs : List Char) : Option (List Char) :=
  let ws := cs.takeWhile isSpaceCh
  let r1 := cs.dropWhile isSpaceCh
  if ws.isEmpty then none
  else
    match ciPrefix ['F', 'R', 'O', 'M'] r1 with
    | some r2 =>
      let ws2 := r2.takeWhile isSpaceCh
      let r3 := r2.dropWhile isSpaceCh
      if ws2.isEmpty then none else some r3
    | none => none

/-- `re.match(r"SELECT\s+(.+?)\s+FROM\s+", sql, IGNORECASE)`: the column
list text and the text after the match. -/
def matchSelectFrom (cs : List Char) : Option (List Char × List Char) :=
  match ciPrefix ['S', 'E', 'L', 'E', 'C', 'T'] cs with
  | some r1 =>
    let ws := r1.takeWhile isSpaceCh
    let tail := r1.dropWhile isSpaceCh
    wsBacktrack (lazyScanO fromTermAt []) ws.reverse tail
  | none => none

/-- `re.split(r"\s+", text, maxsplit=2)`. -/
def splitWsMax2 (cs : List Char) : List (List Char) :=
  let p0 := cs.takeWhile (fun c => !isSpaceCh c)
  let r0 := cs.dropWhile (fun c => !isSpaceCh c)
  if r0.isEmpty then [p0]
  else
    let r1 := r0.dropWhile isSpaceCh
    let p1 := r1.takeWhile (fun c => !isSpaceCh c)
    let r2 := r1.dropWhile (fun c => !isSpaceCh c)
    if r2.isEmpty then [p0, p1]
    else [p0, p1, r2.dropWhile isSpaceCh]

/-- `re.split(r"\s+", text, maxsplit=1)`. -/
def splitWsMax1 (cs : List Char) : List (List Char) :=
  let p0 := cs.takeWhile (fun c => !isSpaceCh c)
  let r0 := cs.dropWhile (fun c => !isSpaceCh c)
  if r0.isEmpty then [p0] else [p0, r0.dropWhile isSpaceCh]

/-- The reserved keywords of the FROM alias detection. -/
def fromKeywords : List String :=
  ["WHERE", "LIMIT", "ORDER", "GROUP", "HAVING", "JOIN", "INNER", "LEFT",
   "RIGHT", "CROSS"]

-- ---------------------------------------------------------------------------
-- `parse`: JOIN extraction
-- ---------------------------------------------------------------------------

/-- One match of the JOIN pattern of `parse`. -/
structure JoinMatch where
  tableTok : String
  aliasTok : Option String
  ref1 : String
  ref2 : String
deriving DecidableEq, Repr

/-- `(\w+(?:\.\w+)?)`: a word run with an optional `.word` extension. -/
def refAt (cs : List Char) : Option (List Char × List Char) :=
  let w := cs.takeWhile isWordCh
  let r := cs.dropWhile isWordCh
  if w.isEmpty then none
  else
    match r with
    | '.' :: r2 =>
      let w2 := r2.takeWhile isWordCh
      let r3 := r2.dropWhile isWordCh
      if w2.isEmpty then some (w, r) else some (w ++ '.' :: w2, r3)
    | _ => some (w, r)

/-- `\s*=\s*` at a position. -/
def eqPartAt (cs : List Char) : Option (List Char) :=
  match cs.dropWhile isSpaceCh with
  | '=' :: r2 => some (r2.dropWhile isSpaceCh)
  | _ => none

/-- `\s+ON\s+ref\s*=\s*ref` at a position. -/
def onPartAt (cs : List Char) : Option (String × String × List Char) :=
  let ws := cs.takeWhile isSpaceCh
  let r1 := cs.dropWhile isSpaceCh
  if ws.isEmpty then none
  else
    match ciPrefix ['O', 'N'] r1 with
    | some r2 =>
      let ws2 := r2.takeWhile isSpaceCh
      let r3 := r2.dropWhile isSpaceCh
      if ws2.isEmpty then none
      else
        match refAt r3 with
        | some (ref1, r4) =>
          match eqPartAt r4 with
          | some r5 =>
            match refAt r5 with
            | some (ref2, r6) => some (String.mk ref1, String.mk ref2, r6)
            | none => none
          | none => none
        | none => none
    | none => none

/-- The `(?:\s+(?:AS\s+)?(\w+))?\s+ON...` tail of the JOIN pattern, trying
the alternatives in the engine's order: alias with `AS`, bare alias, no
alias. -/
def joinTailAt (cs : List Char) : Option (Option String × String × String × List Char) :=
  let ws := cs.takeWhile isSpaceCh
  let r1 := cs.dropWhile isSpaceCh
  let withAs : Option (Option String × String × String × List Char) :=
    if ws.isEmpty then none
    else
      match ciPrefix ['A', 'S'] r1 with
      | some r2 =>
        let ws2 := r2.takeWhile isSpaceCh
        let r3 := r2.dropWhile isSpaceCh
        if ws2.isEmpty then none
        else
          let w := r3.takeWhile isWordCh
          let r4 := r3.dropWhile isWordCh
          if w.isEmpty then none
          else
            match onPartAt r4 with
            | some (a, b, rest) => some (some (String.mk w), a, b, rest)
            | none => none
      | none => none
  match withAs with
  | some r => some r
  | none =>
    let bare : Option (Option String × String × String × List Char) :=
      if ws.isEmpty then none
      else
        let w := r1.takeWhile isWordCh
        let r4 := r1.dropWhile isWordCh
        if w.isEmpty then none
        else
          match onPartAt r4 with
          | some (a, b, rest) => some (some (String.mk w), a, b, rest)
          | none => none
    match bare with
    | some r => some r
    | none =>
      match onPartAt cs with
      | some (a, b, rest) => some (none, a, b, rest)
      | none => none

/-- The whole JOIN pattern tried at one position:
`(?:INNER\s+)?JOIN\s+(\S+)` followed by `joinTailAt`. -/
def joinAt (cs : List Char) : Option (JoinMatch × List Char) :=
  let afterInner : List Char :=
    match ciPrefix ['I', 'N', 'N', 'E', 'R'] cs with
    | some r =>
      let ws := r.takeWhile isSpaceCh
      if ws.isEmpty then cs else r.dropWhile isSpaceCh
    | none => cs
  match ciPrefix ['J', 'O', 'I', 'N'] afterInner with
  | some r1 =>
    let ws := r1.takeWhile isSpaceCh
    let r2 := r1.dropWhile isSpaceCh
    if ws.isEmpty then none
    else
      let tok := r2.takeWhile (fun c => !isSpaceCh c)
      let r3 := r2.dropWhile (fun c => !isSpaceCh c)
      if tok.isEmpty then none
      else
        match joinTailAt r3 with
        | some (a, ref1, ref2, rest) =>
          some ({ tableTok := String.mk tok, aliasTok := a, ref1 := ref1,
                  ref2 := ref2 }, rest)
        | none => none
  | none => none

/-- Leftmost search for the JOIN pattern; returns the match together with
the text before and after it (for `remainder[:start] + remainder[end:]`). -/
def searchJoinAux (beforeRev : List Char) :
    List Char → Option (JoinMatch × List Char × List Char)
  | [] => none
  | c :: rest =>
    match joinAt (c :: rest) with
    | some (jm, after) => some (jm, beforeRev.reverse, after)
    | none => searchJoinAux (c :: beforeRev) rest

/-- The JOIN extraction loop of `parse`: repeatedly find the leftmost JOIN
match, parse it, and splice it out of the remainder.  The fuel bounds the
number of iterations; `parse` supplies the remainder length, which suffices
since every splice strictly shrinks the text. -/
def joinLoop : Nat → List Char → Except ParseError (List JoinClause × List Char)
  | 0, rem => .ok ([], rem)
  | fuel + 1, rem =>
    match searchJoinAux [] rem with
    | none => .ok ([], rem)
    | some (jm, before, after) =>
      match parseTable jm.tableTok with
      | .error e => .error e
      | .ok t =>
        let t2 :=
          match jm.aliasTok with
          | some a => { t with alias_ := some a }
          | none => t
        match joinLoop fuel (before ++ after) with
        | .error e => .error e
        | .ok (js, rem2) =>
          .ok ({ table := t2, on_left := jm.ref1, on_right := jm.ref2 } :: js, rem2)

-- ---------------------------------------------------------------------------
-- `parse`: WHERE / ORDER BY / LIMIT extraction
-- ---------------------------------------------------------------------------

/-- The terminator `(?:\s+ORDER\s+BY|\s+LIMIT|\s*$)` of the WHERE group. -/
def whereTermAt (cs : List Char) : Bool :=
  let ws := cs.takeWhile isSpaceCh
  let r1 := cs.dropWhile isSpaceCh
  (!ws.isEmpty &&
    (match ciPrefix ['O', 'R', 'D', 'E', 'R'] r1 with
     | some r2 =>
       let ws2 := r2.takeWhile isSpaceCh
       let r3 := r2.dropWhile isSpaceCh
       !ws2.isEmpty && (ciPrefix ['B', 'Y'] r3).isSome
     | none => false)) ||
  (!ws.isEmpty && (ciPrefix ['L', 'I', 'M', 'I', 'T'] r1).isSome) ||
  atEnd r1

/-- `re.search(r"\bWHERE\s+(.+?)(?:\s+ORDER\s+BY|\s+LIMIT|\s*$)", rem)`:
the WHERE group text. -/
def searchWhere : Option Char → List Char → Option (List Char)
  | _, [] => none
  | prev, c :: rest =>
    let here : Option (List Char) :=
      if isBoundary prev then
        match ciPrefix ['W', 'H', 'E', 'R', 'E'] (c :: rest) with
        | some r1 =>
          let ws := r1.takeWhile isSpaceCh
          let tail := r1.dropWhile isSpaceCh
          match wsBacktrack
              (lazyScanO (fun r => if whereTermAt r then some () else none) [])
              ws.reverse tail with
          | some (g, _) => some g
          | none => none
        | none => none
      else none
    match here with
    | some g => some g
    | none => searchWhere (some c) rest

/-- The terminator `(?:\s+LIMIT|\s*$)` of the ORDER BY group. -/
def orderTermAt (cs : List Char) : Bool :=
  let ws := cs.takeWhile isSpaceCh
  let r1 := cs.dropWhile isSpaceCh
  (!ws.isEmpty && (ciPrefix ['L', 'I', 'M', 'I', 'T'] r1).isSome) || atEnd r1

/-- `re.search(r"\bORDER\s+BY\s+(.+?)(?:\s+LIMIT|\s*$)", rem)`: the ORDER BY
group text. -/
def searchOrder : Option Char → List Char → Option (List Char)
  | _, [] => none
  | prev, c :: rest =>
    let here : Option (List Char) :=
      if isBoundary prev then
        match ciPrefix ['O', 'R', 'D', 'E', 'R'] (c :: rest) with
        | some r1 =>
          let ws := r1.takeWhile isSpaceCh
          let r2 := r1.dropWhile isSpaceCh
          if ws.isEmpty then none
          else
            match ciPrefix ['B', 'Y'] r2 with
            | some r3 =>
              let ws2 := r3.takeWhile isSpaceCh
              let tail := r3.dropWhile isSpaceCh
              match wsBacktrack
                  (lazyScanO (fun r => if orderTermAt r then some () else none) [])
                  ws2.reverse tail with
              | some (g, _) => some g
              | none => none
            | none => none
        | none => none
      else none
    match here with
    | some g => some g
    | none => searchOrder (some c) rest

/-- `re.search(r"\bLIMIT\s+(\d+)", rem)`: the first LIMIT amount. -/
def searchLimit : Option Char → List Char → Option Nat
  | _, [] => none
  | prev, c :: rest =>
    let here : Option Nat :=
      if isBoundary prev then
        match ciPrefix ['L', 'I', 'M', 'I', 'T'] (c :: rest) with
        | some r1 =>
          let ws := r1.takeWhile isSpaceCh
          let r2 := r1.dropWhile isSpaceCh
          if ws.isEmpty then none
          else
            let ds := r2.takeWhile Char.isDigit
            if ds.isEmpty then none else some (natOfDigits ds)
        | none => none
      else none
    match here with
    | some n => some n
    | none => searchLimit (some c) rest

/-- `\s+AND\s+` at a position; returns the text after the match. -/
def andMatchAt (cs : List Char) : Option (List Char) :=
  let ws := cs.takeWhile isSpaceCh
  let r1 := cs.dropWhile isSpaceCh
  if ws.isEmpty then none
  else
    match ciPrefix ['A', 'N', 'D'] r1 with
    | some r2 =>
      let ws2 := r2.takeWhile isSpaceCh
      let r3 := r2.dropWhile isSpaceCh
      if ws2.isEmpty then none else some r3
    | none => none

/-- `re.split(r"\s+AND\s+", text, IGNORECASE)` (with fuel; `splitAnd`
supplies the text length, which suffices since each step consumes at least
one character). -/
def splitAndFuel : Nat → List Char → List Char → List (List Char)
  | 0, acc, _ => [acc.reverse]
  | _, acc, [] => [acc.reverse]
  | fuel + 1, acc, c :: rest =>
    match andMatchAt (c :: rest) with
    | some r2 => acc.reverse :: splitAndFuel fuel [] r2
    | none => splitAndFuel fuel (c :: acc) rest

/-- `re.split(r"\s+AND\s+", text, IGNORECASE)`. -/
def splitAnd (cs : List Char) : List (List Char) :=
  splitAndFuel (cs.length + 1) [] cs

-- ---------------------------------------------------------------------------
-- `parse`
-- ---------------------------------------------------------------------------

/-- `parse` of `parser.py`. -/
def parse (sql : String) : Except ParseError WikiQuery :=
  let s0 := stripChars sql.data
  let s1 := (s0.reverse.dropWhile (fun c => c = ';')).reverse
  let s := stripChars s1
  match matchSelectFrom s with
  | none => .error (.malformedQuery (String.mk s))
  | some (colsRaw, rest) => do
    let columnsRaw := String.mk (stripChars colsRaw)
    let columns ←
      if columnsRaw = "*" then pure [({ kind := .star } : Column)]
      else
        (splitRespectingQuotes columnsRaw.data).mapM
          (fun gp => parseColumn (String.mk gp))
    let parts := splitWsMax2 rest
    let table ← parseTable (String.mk (parts.headD []))
    let (table2, remainder) :=
      match parts with
      | [] => (table, ([] : List Char))
      | [_] => (table, ([] : List Char))
      | _ :: p1 :: more =>
        let nextUpper := upperStr (String.mk p1)
        if nextUpper = "AS" ∧ more ≠ [] then
          let p2 := more.headD []
          let rp := splitWsMax1 p2
          ({ table with alias_ := some (String.mk (rp.headD [])) },
           (rp.drop 1).headD [])
        else if nextUpper ∉ fromKeywords then
          ({ table with alias_ := some (String.mk p1) }, more.headD [])
        else
          (table, (String.intercalate " " ((p1 :: more).map String.mk)).data)
    let (joins, remainder2) ← joinLoop (remainder.length + 1) remainder
    let conditions ←
      (match searchWhere none remainder2 with
       | some g => (splitAnd (stripChars g)).mapM
           (fun p => parseCondition (String.mk p))
       | none => pure [])
    let order_by :=
      match searchOrder none remainder2 with
      | some g => ((String.mk g).splitOn ",").map stripStr
      | none => []
    let limit := searchLimit none remainder2
    pure { columns := columns, table := table2, joins := joins,
           conditions := conditions, limit := limit, order_by := order_by }

-- ---------------------------------------------------------------------------
-- Compiler (`sparql.py`)
-- ---------------------------------------------------------------------------

/-- `ColumnMapping` of `sparql.py`. -/
structure ColumnMapping where
  sparql_var : String
  display_name : String
deriving DecidableEq, Repr

/-- `SparqlResult` of `sparql.py`. -/
structure SparqlResult where
  sparql : String
  column_map : List ColumnMapping
deriving DecidableEq, Repr

/-- `_var` of `sparql.py`. -/
def varS (name : String) : String := "?" ++ name

/-- `_table_var` of `sparql.py`. -/
def table_var (t : WikiTable) : String := t.alias_.getD "item"

/-- `_prop_var` of `sparql.py`. -/
def prop_var (tvar pid : String) : String :=
  if tvar = "item" then pid else tvar ++ "_" ++ pid

/-- `_parse_on_ref` of `sparql.py`. -/
def parse_on_ref (ref : String) (defaultTvar : String) : String × String :=
  if ref.data.contains '.' then
    (String.mk (ref.data.takeWhile (fun c => c ≠ '.')),
     upperStr (String.mk ((ref.data.dropWhile (fun c => c ≠ '.')).drop 1)))
  else (defaultTvar, upperStr ref)

/-- The `needed_props` insertion-ordered dictionary: entries are
`(key, pid, table_var)` with `key = table_var ++ "." ++ pid`. -/
abbrev NeededProps := List (String × String × String)

/-- `_ensure_prop` of `compile_query`. -/
def ensureProp (np : NeededProps) (pid tvar : String) : NeededProps :=
  let key := tvar ++ "." ++ pid
  if (List.any np (fun e => e.1 = key)) then np else np ++ [(key, pid, tvar)]

/-- The Python-interpolation view of `Column.pid` (Python renders `None` as
the string `"None"` inside an f-string; the parser guarantees a pid for
`Label`/`Qid` columns, so the default is never reached on parsed IR). -/
def colPid (c : Column) : String := c.pid.getD "None"

/-- Accumulator state of the column-processing loop of `compile_query`. -/
structure ColState where
  selectVars : List String
  columnMap : List ColumnMapping
  needed : NeededProps

/-- One iteration of the column loop of `compile_query` (the branch for
queries without a `Star` column). -/
def processColumn (mainVar : String) (st : ColState) (col : Column) : ColState :=
  match col.kind with
  | .item =>
    { st with
      selectVars := st.selectVars ++ [varS (mainVar ++ "Label")],
      columnMap := st.columnMap ++
        [⟨mainVar ++ "Label", col.alias_.getD "item"⟩] }
  | .item_qid =>
    { st with
      selectVars := st.selectVars ++ [varS mainVar],
      columnMap := st.columnMap ++ [⟨mainVar, col.alias_.getD "item_qid"⟩] }
  | .label =>
    let pvar := prop_var mainVar (colPid col)
    let needed := ensureProp st.needed (colPid col) mainVar
    let sv1 :=
      if varS pvar ∈ st.selectVars then st.selectVars
      else st.selectVars ++ [varS pvar]
    let labelVar := pvar ++ "Label"
    let sv2 := if varS labelVar ∈ sv1 then sv1 else sv1 ++ [varS labelVar]
    { selectVars := sv2,
      columnMap := st.columnMap ++ [⟨labelVar, col.alias_.getD (colPid col)⟩],
      needed := needed }
  | .qid =>
    let pvar := prop_var mainVar (colPid col)
    let needed := ensureProp st.needed (colPid col) mainVar
    let sv1 :=
      if varS pvar ∈ st.selectVars then st.selectVars
      else st.selectVars ++ [varS pvar]
    { selectVars := sv1,
      columnMap := st.columnMap ++ [⟨pvar, col.alias_.getD (colPid col ++ "_qid")⟩],
      needed := needed }
  | .star => st

/-- The column loop of `compile_query`. -/
def processColumns (mainVar : String) (st : ColState) (cols : List Column) : ColState :=
  cols.foldl (processColumn mainVar) st

/-- Accumulator state of the JOIN loop of `compile_query`. -/
structure JoinState where
  counter : Nat
  triples : List String
  filters : List String
  joins : List JoinClause

/-- One iteration of the JOIN loop of `compile_query`, including the
in-place assignment of a synthetic alias `j1, j2, …` to an unaliased join
table. -/
def processJoin (mainVar : String) (st : JoinState) (j : JoinClause) : JoinState :=
  let counter : Nat :=
    match j.table.alias_ with
    | some _ => st.counter
    | none => st.counter + 1
  let jvar : String :=
    match j.table.alias_ with
    | some a => a
    | none => "j" ++ toString (st.counter + 1)
  let jt : WikiTable :=
    match j.table.alias_ with
    | some _ => j.table
    | none => { j.table with alias_ := some jvar }
  let t1 := "  " ++ varS jvar ++ " wdt:" ++ jt.property ++ " wd:" ++ jt.qid ++ " ."
  let lr := parse_on_ref j.on_left mainVar
  let rr := parse_on_ref j.on_right jvar
  let lpvar := prop_var lr.1 lr.2
  let rpvar := prop_var rr.1 rr.2
  let t2 := "  " ++ varS lr.1 ++ " wdt:" ++ lr.2 ++ " " ++ varS lpvar ++ " ."
  let t3 := "  " ++ varS rr.1 ++ " wdt:" ++ rr.2 ++ " " ++ varS rpvar ++ " ."
  let fs :=
    if lpvar ≠ rpvar then
      ["  FILTER(" ++ varS lpvar ++ " = " ++ varS rpvar ++ ")"]
    else []
  { counter := counter,
    triples := st.triples ++ [t1, t2, t3],
    filters := st.filters ++ fs,
    joins := st.joins ++ [{ j with table := jt }] }

/-- The JOIN loop of `compile_query`. -/
def processJoins (mainVar : String) (st : JoinState) (js : List JoinClause) : JoinState :=
  js.foldl (processJoin mainVar) st

/-- Accumulator state of the WHERE-condition loop of `compile_query`. -/
structure CondState where
  needed : NeededProps
  constrained : List String
  triples : List String
  filters : List String

/-- `where_constrained.add` (Python set membership semantics, insertion
order kept). -/
def addConstrained (l : List String) (p : String) : List String :=
  if p ∈ l then l else l ++ [p]

/-- The required property triple emitted by a WHERE condition. -/
def condBindLine (mainVar pid : String) : String :=
  "  " ++ varS mainVar ++ " wdt:" ++ pid ++ " " ++ varS (prop_var mainVar pid) ++ " ."

/-- The `rdfs:label` lookup triple emitted by a label-comparison WHERE
condition. -/
def condLabelLine (mainVar pid : String) : String :=
  "  " ++ varS (prop_var mainVar pid) ++ " rdfs:label " ++
    varS (prop_var mainVar pid ++ "_label") ++ " ."

/-- The language-tag filter line (appended to the triples list by the
source) emitted by a label-comparison WHERE condition. -/
def condLangLine (mainVar pid language : String) : String :=
  "  FILTER(LANG(" ++ varS (prop_var mainVar pid ++ "_label") ++ ") = \x22" ++
    language ++ "\x22)"

/-- One iteration of the WHERE-condition loop of `compile_query`. -/
def processCondition (mainVar language : String) (st : CondState)
    (cond : Condition) : CondState :=
  let needed := ensureProp st.needed cond.pid mainVar
  let pvar := prop_var mainVar cond.pid
  if cond.is_qid_col then
    let constrained := addConstrained st.constrained cond.pid
    if cond.op = Op.eq then
      let val := upperStr cond.value
      if val.data.head? = some 'Q' then
        { needed := needed, constrained := constrained,
          triples := st.triples ++ [condBindLine mainVar cond.pid],
          filters := st.filters ++
            ["  FILTER(" ++ varS pvar ++ " = wd:" ++ val ++ ")"] }
      else
        { needed := needed, constrained := constrained,
          triples := st.triples ++ [condBindLine mainVar cond.pid],
          filters := st.filters ++
            ["  FILTER(STR(" ++ varS pvar ++ ") = \x22" ++ cond.value ++ "\x22)"] }
    else if cond.op = Op.neq then
      let val := upperStr cond.value
      let filt :=
        if val.data.head? = some 'Q' then
          "  FILTER(" ++ varS pvar ++ " != wd:" ++ val ++ ")"
        else
          "  FILTER(STR(" ++ varS pvar ++ ") != \x22" ++ cond.value ++ "\x22)"
      { needed := needed, constrained := constrained,
        triples := st.triples ++ [condBindLine mainVar cond.pid],
        filters := st.filters ++ [filt] }
    else
      { needed := needed, constrained := constrained,
        triples := st.triples, filters := st.filters }
  else
    let constrained := addConstrained st.constrained cond.pid
    let labelVar := pvar ++ "_label"
    let filt :=
      if cond.op = Op.eq then
        "  FILTER(" ++ varS labelVar ++ " = \x22" ++ cond.value ++ "\x22@" ++
          language ++ ")"
      else
        "  FILTER(" ++ varS labelVar ++ " " ++ opStr cond.op ++ " \x22" ++
          cond.value ++ "\x22@" ++ language ++ ")"
    { needed := needed, constrained := constrained,
      triples := st.triples ++
        [condBindLine mainVar cond.pid,
         condLabelLine mainVar cond.pid,
         condLangLine mainVar cond.pid language],
      filters := st.filters ++ [filt] }

/-- The WHERE-condition loop of `compile_query`. -/
def processConditions (mainVar language : String) (st : CondState)
    (cs : List Condition) : CondState :=
  cs.foldl (processCondition mainVar language) st

/-- The OPTIONAL line emitted for a needed, unconstrained property. -/
def optLine (tvar pid : String) : String :=
  "  OPTIONAL \x7b " ++ varS tvar ++ " wdt:" ++ pid ++ " " ++
    varS (prop_var tvar pid) ++ " . \x7d"

/-- The needed-properties loop of `compile_query` building the OPTIONAL
triples (with the redundant `seen_props` de-duplication of the source). -/
def buildOptionals (np : NeededProps) (constrained : List String) : List String :=
  (np.foldl
    (fun (acc : List String × List String) e =>
      if e.1 ∈ acc.1 then acc
      else
        (acc.1 ++ [e.1],
         if e.2.1 ∈ constrained then acc.2
         else acc.2 ++ [optLine e.2.2 e.2.1]))
    ([], [])).2

/-- ORDER BY term lowering of `compile_query`. -/
def orderTerm (term : String) : String :=
  let tu := upperStr term
  if tu.data.reverse.take 4 = ['C', 'S', 'A', ' '] then
    "ASC(" ++ varS (stripStr (String.mk (term.data.take (term.data.length - 4)))) ++ ")"
  else if tu.data.reverse.take 5 = ['C', 'S', 'E', 'D', ' '] then
    "DESC(" ++ varS (stripStr (String.mk (term.data.take (term.data.length - 5)))) ++ ")"
  else varS term

/-- The intermediate data of one `compile_query` call, before assembly. -/
structure CompileParts where
  mainVar : String
  triples : List String
  optionals : List String
  filters : List String
  selectVars : List String
  columnMap : List ColumnMapping
  needed : NeededProps
  constrained : List String
  updatedQuery : WikiQuery

/-- `query.columns` contains a `Star` column. -/
def hasStar (q : WikiQuery) : Bool :=
  q.columns.any (fun c => c.kind = ColumnKind.star)

/-- The class-membership triple of the main table. -/
def mainTripleOf (query : WikiQuery) : String :=
  "  " ++ varS (table_var query.table) ++ " wdt:" ++ query.table.property ++
    " wd:" ++ query.table.qid ++ " ."

/-- The state after the column-processing phase of `compile_query` (the
`Star` short-circuit, else the column loop). -/
def colStateOf (query : WikiQuery) : ColState :=
  if hasStar query then
    { selectVars := [varS (table_var query.table),
                     varS (table_var query.table ++ "Label")],
      columnMap := [⟨table_var query.table, "item_qid"⟩,
                    ⟨table_var query.table ++ "Label", "item"⟩],
      needed := [] }
  else processColumns (table_var query.table) ⟨[], [], []⟩ query.columns

/-- The state after the JOIN phase of `compile_query`. -/
def joinStateOf (query : WikiQuery) : JoinState :=
  processJoins (table_var query.table) ⟨0, [], [], []⟩ query.joins

/-- The state after the WHERE phase of `compile_query` (seeded with the
needed-properties table produced by the column phase). -/
def condStateOf (query : WikiQuery) (language : String) : CondState :=
  processConditions (table_var query.table) language
    ⟨(colStateOf query).needed, [], [], []⟩ query.conditions

/-- The body of `compile_query` of `sparql.py` up to assembly: emits the
main triple, processes columns, joins and conditions, and builds the
OPTIONAL triples.  `updatedQuery` records the in-place synthetic-alias
assignment performed on unaliased join tables. -/
def compileParts (query : WikiQuery) (language : String) : CompileParts :=
  { mainVar := table_var query.table,
    triples := [mainTripleOf query] ++ (joinStateOf query).triples ++
      (condStateOf query language).triples,
    optionals := buildOptionals (condStateOf query language).needed
      (condStateOf query language).constrained,
    filters := (joinStateOf query).filters ++
      (condStateOf query language).filters,
    selectVars := (colStateOf query).selectVars,
    columnMap := (colStateOf query).columnMap,
    needed := (condStateOf query language).needed,
    constrained := (condStateOf query language).constrained,
    updatedQuery := { query with joins := (joinStateOf query).joins } }

/-- `compile_query` of `sparql.py`.  The first component is the returned
`SparqlResult`; the second is the query as left behind by the call (Python
mutates unaliased join tables in place to give them synthetic aliases). -/
def compile_query (query : WikiQuery) (language : String) :
    SparqlResult × WikiQuery :=
  let p := compileParts query language
  let labelService :=
    "  SERVICE wikibase:label \x7b bd:serviceParam wikibase:language \x22[AUTO_LANGUAGE]," ++
      language ++ "\x22 . \x7d"
  let lines :=
    ["SELECT " ++ String.intercalate " " p.selectVars ++ " WHERE \x7b"] ++
      p.triples ++ p.optionals ++ p.filters ++ [labelService, "\x7d"]
  let lines2 :=
    if query.order_by ≠ [] then
      lines ++ ["ORDER BY " ++ String.intercalate " " (query.order_by.map orderTerm)]
    else lines
  let lines3 :=
    match query.limit with
    | some n => lines2 ++ ["LIMIT " ++ toString n]
    | none => lines2
  (⟨String.intercalate "\n" lines3, p.columnMap⟩, p.updatedQuery)

/-- `to_sparql` of `sparql.py`. -/
def to_sparql (query : WikiQuery) (language : String) : String :=
  (compile_query query language).1.sparql

-- ---------------------------------------------------------------------------
-- Concrete IR values used by the claim theorems
-- ---------------------------------------------------------------------------

/-- `parse "SELECT * FROM Q1"`. -/
def qStarQ1 : WikiQuery :=
  { columns := [{ kind := .star }], table := { property := "P31", qid := "Q1" } }

/-- `parse "SELECT P17_qid FROM Q1 WHERE P17_qid < 'Q5'"`. -/
def qQidLt : WikiQuery :=
  { columns := [{ kind := .qid, pid := some "P17" }],
    table := { property := "P31", qid := "Q1" },
    conditions := [{ column := "P17_qid", op := .lt, value := "Q5",
                     is_qid_col := true, pid := "P17" }] }

/-- `parse "SELECT P17 FROM Q1 t"`. -/
def qMainAliased : WikiQuery :=
  { columns := [{ kind := .label, pid := some "P17" }],
    table := { property := "P31", qid := "Q1", alias_ := some "t" } }

/-- `parse "SELECT P17, * FROM Q1"`. -/
def qLabelAndStar : WikiQuery :=
  { columns := [{ kind := .label, pid := some "P17" }, { kind := .star }],
    table := { property := "P31", qid := "Q1" } }

/-- `parse "SELECT item, item FROM Q1"`. -/
def qItemItem : WikiQuery :=
  { columns := [{ kind := .item }, { kind := .item }],
    table := { property := "P31", qid := "Q1" } }

/-- `parse "SELECT P17 FROM Q1 WHERE P17 = 'no LIMIT 5'"` (the WHERE value
scanner truncates the quoted literal at the LIMIT keyword). -/
def qQuotedLimit : WikiQuery :=
  { columns := [{ kind := .label, pid := some "P17" }],
    table := { property := "P31", qid := "Q1" },
    conditions := [{ column := "P17", op := .eq, value := "\x27no",
                     is_qid_col := false, pid := "P17" }],
    limit := some 5 }

/-- `parse "SELECT P17 FROM Q1 WHERE P17_qid >= 'Q5'"`. -/
def qQidGe : WikiQuery :=
  { columns := [{ kind := .label, pid := some "P17" }],
    table := { property := "P31", qid := "Q1" },
    conditions := [{ column := "P17_qid", op := .gte, value := "Q5",
                     is_qid_col := true, pid := "P17" }] }

-- ---------------------------------------------------------------------------
-- Derived views of the compiler used to state the claims
-- ---------------------------------------------------------------------------

/-- The single column-map entry produced for one declared column in the
non-`Star` branch of `compile_query` (the `Star` case is unreachable there;
its value is irrelevant and only used under a no-`Star` hypothesis). -/
def expectedColEntry (main : String) (c : Column) : ColumnMapping :=
  match c.kind with
  | .star => ⟨"", ""⟩
  | .item => ⟨main ++ "Label", c.alias_.getD "item"⟩
  | .item_qid => ⟨main, c.alias_.getD "item_qid"⟩
  | .label => ⟨prop_var main (colPid c) ++ "Label", c.alias_.getD (colPid c)⟩
  | .qid => ⟨prop_var main (colPid c), c.alias_.getD (colPid c ++ "_qid")⟩

/-- Whether the WHERE loop of `compile_query` emits a required property
triple for a condition: it does for every label comparison and for `=`/`!=`
QID-column comparisons, and does not for `<`, `>`, `<=`, `>=` QID-column
comparisons. -/
def condEmitsTriple (c : Condition) : Bool :=
  if c.is_qid_col then decide (c.op = Op.eq ∨ c.op = Op.neq) else true

/-- The number of required property triples the WHERE loop emits for a
property id. -/
def condWeight (conds : List Condition) (pid : String) : Nat :=
  (conds.filter (fun c => decide (c.pid = pid) && condEmitsTriple c)).length

/-- The triples list appended by one WHERE condition. -/
def condLines (mainVar language : String) (c : Condition) : List String :=
  if c.is_qid_col then
    if c.op = Op.eq ∨ c.op = Op.neq then [condBindLine mainVar c.pid] else []
  else
    [condBindLine mainVar c.pid, condLabelLine mainVar c.pid,
     condLangLine mainVar c.pid language]

/-- The JOIN loop started from a bare counter with empty output lists. -/
def runJoins (mainVar : String) (c : Nat) (js : List JoinClause) : JoinState :=
  processJoins mainVar ⟨c, [], [], []⟩ js

-- ---------------------------------------------------------------------------
-- Theorems
-- ---------------------------------------------------------------------------

/-- C3 (counterexample): the claim says `parse` raises `MalformedQuery` on
the input `SELECT * FROM Q1`; in fact that input parses successfully (the
`SELECT ... FROM ` match succeeds and `Q1` is a valid table token). -/
theorem c3_counterexample : parse "SELECT * FROM Q1" = Except.ok qStarQ1 := rfl

/-- C3 (amended): `parse` succeeds on `SELECT * FROM Q1`; it raises
`MalformedQuery` when the `SELECT ... FROM ` shape is absent (for example on
`SELECT *`), `InvalidTableReference` when the table token after FROM is
`X123`, and `InvalidCondition` when a WHERE predicate's column is `foo`. -/
theorem c3_amended :
    parse "SELECT * FROM Q1" = Except.ok qStarQ1 ∧
    parse "SELECT *" = Except.error (.malformedQuery "SELECT *") ∧
    parse "SELECT * FROM X123" = Except.error (.invalidTableReference "X123") ∧
    parse "SELECT * FROM Q1 WHERE foo = \x27x\x27" =
      Except.error (.invalidConditionColumn "foo") :=
  ⟨rfl, rfl, rfl, rfl⟩

/-- C10: the WHERE-clause and LIMIT-clause scanners do not respect quoted
strings: on `SELECT P17 FROM Q1 WHERE P17 = 'no LIMIT 5'` the word LIMIT
occurs only inside the single-quoted literal, yet `parse` succeeds, the
condition's value is truncated at the LIMIT keyword (to `'no`, the opening
quote kept since the quote pair is broken), and the digit run `5` is
returned as the query's limit. -/
theorem c10_quoted_limit :
    parse "SELECT P17 FROM Q1 WHERE P17 = \x27no LIMIT 5\x27" =
      Except.ok qQuotedLimit ∧
    qQuotedLimit.conditions.map Condition.value = ["\x27no"] ∧
    qQuotedLimit.limit = some 5 :=
  ⟨rfl, rfl, rfl⟩

/-- C1 (counterexample): a QID-column condition with operator `<` (reachable
from `parse`) is a `isQidComparison=true` condition for which `compile_query`
emits no property triple and no filter at all: the compiled triples are just
the class-membership triple and the filters list is empty, contradicting the
claim that every such condition yields a required triple and a filter. -/
theorem c1_counterexample :
    parse "SELECT P17_qid FROM Q1 WHERE P17_qid < \x27Q5\x27" =
      Except.ok qQidLt ∧
    qQidLt.conditions.map Condition.is_qid_col = [true] ∧
    (compileParts qQidLt "en").triples = ["  ?item wdt:P31 wd:Q1 ."] ∧
    (compileParts qQidLt "en").filters = [] :=
  ⟨rfl, rfl, rfl, rfl⟩

/-- C2 (counterexample): the variable associated with a property on the main
table is not always the property id itself: with main-table alias `t`
(reachable from `parse`) the variable for `P17` is `t_P17`, and a joined
table aliased `item` derives the same variable name as an unaliased main
table, so the naming scheme does not rule out collisions. -/
theorem c2_counterexample :
    parse "SELECT P17 FROM Q1 t" = Except.ok qMainAliased ∧
    prop_var (table_var qMainAliased.table) "P17" = "t_P17" ∧
    prop_var (table_var qMainAliased.table) "P17" ≠ "P17" ∧
    prop_var (table_var { property := "P31", qid := "Q2", alias_ := some "item" })
        "P17" =
      prop_var (table_var { property := "P31", qid := "Q1", alias_ := none })
        "P17" :=
  ⟨rfl, rfl, by decide, rfl⟩

/-- C4 (counterexample): the column map is not one entry per declared
column: `SELECT P17, * FROM Q1` declares two columns, but the presence of
the `Star` column makes `compile_query` return only the two synthesized
`Star` entries, with no entry for the declared `P17` column. -/
theorem c4_counterexample :
    parse "SELECT P17, * FROM Q1" = Except.ok qLabelAndStar ∧
    qLabelAndStar.columns.length = 2 ∧
    (compile_query qLabelAndStar "en").1.column_map =
      [⟨"item", "item_qid"⟩, ⟨"itemLabel", "item"⟩] :=
  ⟨rfl, rfl, rfl⟩

/-- C5 (counterexample): the projection list can contain duplicates: on
`SELECT item, item FROM Q1` (reachable from `parse`) the compiler appends
`?itemLabel` once per `item` column with no membership check, so the SELECT
clause lists the same variable twice. -/
theorem c5_counterexample :
    parse "SELECT item, item FROM Q1" = Except.ok qItemItem ∧
    (compileParts qItemItem "en").selectVars = ["?itemLabel", "?itemLabel"] ∧
    ¬ List.Nodup (compileParts qItemItem "en").selectVars :=
  ⟨rfl, rfl, by decide⟩

/-- C8: for every query string on which `parse` succeeds and every language
string, `compile_query` applied to the resulting `WikiQuery` returns a
result: it is a total function of the IR (the embedding of `compile_query`
has no failure path, mirroring the absence of raising operations in the
source). -/
theorem c8_compile_total (s lang : String) (q : WikiQuery)
    (_ : parse s = Except.ok q) :
    ∃ r u, compile_query q lang = (r, u) :=
  ⟨_, _, rfl⟩

/-- C8 (witness): instantiation at `SELECT * FROM Q1` and language `en`. -/
theorem c8_witness :
    parse "SELECT * FROM Q1" = Except.ok qStarQ1 ∧
    ∃ r u, compile_query qStarQ1 "en" = (r, u) :=
  ⟨rfl, c8_compile_total "SELECT * FROM Q1" "en" qStarQ1 rfl⟩

/-- C1 (amended): for a WHERE condition with `isQidComparison=true` and
operator `=` or `!=`, `compile_query` emits one required property triple
binding the property's entity variable and one filter: against a value whose
uppercased form starts with `Q` the filter compares the entity variable with
the entity resource `wd:<uppercased value>`, otherwise it compares
`STR(variable)` with the original literal using the requested operator.  For
the operators `<`, `>`, `<=`, `>=` on a QID column, no triple and no filter
are emitted at all. -/
theorem c1_amended (cond : Condition) (mainVar language : String)
    (st : CondState) (h : cond.is_qid_col = true) :
    (cond.op = Op.eq →
      (processCondition mainVar language st cond).triples =
        st.triples ++ [condBindLine mainVar cond.pid] ∧
      (processCondition mainVar language st cond).filters =
        st.filters ++
          [if (upperStr cond.value).data.head? = some 'Q' then
             "  FILTER(" ++ varS (prop_var mainVar cond.pid) ++ " = wd:" ++
               upperStr cond.value ++ ")"
           else
             "  FILTER(STR(" ++ varS (prop_var mainVar cond.pid) ++
               ") = \x22" ++ cond.value ++ "\x22)"]) ∧
    (cond.op = Op.neq →
      (processCondition mainVar language st cond).triples =
        st.triples ++ [condBindLine mainVar cond.pid] ∧
      (processCondition mainVar language st cond).filters =
        st.filters ++
          [if (upperStr cond.value).data.head? = some 'Q' then
             "  FILTER(" ++ varS (prop_var mainVar cond.pid) ++ " != wd:" ++
               upperStr cond.value ++ ")"
           else
             "  FILTER(STR(" ++ varS (prop_var mainVar cond.pid) ++
               ") != \x22" ++ cond.value ++ "\x22)"]) ∧
    (cond.op ≠ Op.eq → cond.op ≠ Op.neq →
      (processCondition mainVar language st cond).triples = st.triples ∧
      (processCondition mainVar language st cond).filters = st.filters) := by
  refine ⟨?_, ?_, ?_⟩
  · intro hop
    by_cases hq : (upperStr cond.value).data.head? = some 'Q' <;>
      simp [processCondition, h, hop, hq]
  · intro hop
    by_cases hq : (upperStr cond.value).data.head? = some 'Q' <;>
      simp [processCondition, h, hop, hq]
  · intro h1 h2
    simp [processCondition, h, h1, h2]

/-- C1 (amended, witness): instantiation at the condition
`P17_qid = 'Q17'` on the main table with language `en`. -/
theorem c1_amended_witness :
    ({ column := "P17_qid", op := .eq, value := "Q17", is_qid_col := true,
       pid := "P17" } : Condition).is_qid_col = true ∧
    (processCondition "item" "en" ⟨[], [], [], []⟩
        { column := "P17_qid", op := .eq, value := "Q17", is_qid_col := true,
          pid := "P17" }).triples = [] ++ [condBindLine "item" "P17"] := by
  refine ⟨rfl, ?_⟩
  exact ((c1_amended
    { column := "P17_qid", op := .eq, value := "Q17", is_qid_col := true,
      pid := "P17" } "item" "en" ⟨[], [], [], []⟩ rfl).1 rfl).1

/-- C2 (amended): the naming rule of `_prop_var` keys on the table variable,
not on main-versus-joined: the variable for `pid` is `pid` itself exactly
when the table variable is the literal `item` (the main table's variable
when it has no alias), and `{tableVariable}_{pid}` otherwise; hence for any
table variable `a ≠ "item"` (for example a joined table's alias) the derived
name differs from the one derived on the variable `item`. -/
theorem c2_amended (t : WikiTable) (pid a : String) (h : a ≠ "item") :
    (table_var t = "item" → prop_var (table_var t) pid = pid) ∧
    prop_var a pid = a ++ "_" ++ pid ∧
    prop_var a pid ≠ prop_var "item" pid := by
  refine ⟨?_, ?_, ?_⟩
  · intro ht
    simp [prop_var, ht]
  · simp [prop_var, h]
  · intro heq
    have h2 : a ++ "_" ++ pid = pid := by
      simpa [prop_var, h] using heq
    have hlen := congrArg String.length h2
    rw [String.length_append, String.length_append] at hlen
    have hu : ("_" : String).length = 1 := rfl
    omega


/-- C2 (amended, witness): instantiation at the unaliased main table of
`Q1`, the property `P17` and the join alias `t`. -/
theorem c2_amended_witness :
    table_var { property := "P31", qid := "Q1", alias_ := none } = "item" ∧
    prop_var (table_var { property := "P31", qid := "Q1", alias_ := none })
      "P17" = "P17" ∧
    prop_var "t" "P17" = "t" ++ "_" ++ "P17" ∧
    prop_var "t" "P17" ≠ prop_var "item" "P17" := by
  have h := c2_amended { property := "P31", qid := "Q1", alias_ := none }
    "P17" "t" (by decide)
  exact ⟨rfl, h.1 rfl, h.2.1, h.2.2⟩

/-- Inversion for `matchOpAt`: a successful match consumes exactly the
operator's token. -/
theorem matchOpAt_decomp (cs : List Char) (op : Op) (after : List Char)
    (h : matchOpAt cs = some (op, after)) :
    cs = (opStr op).data ++ after := by
  match cs with
  | [] => simp [matchOpAt] at h
  | [c] =>
    simp only [matchOpAt] at h
    split_ifs at h <;>
      first
        | exact Option.noConfusion h
        | · simp only [Option.some.injEq, Prod.mk.injEq] at h
            obtain ⟨rfl, rfl⟩ := h
            try obtain ⟨rfl, rfl⟩ := ‹_ = _ ∧ _ = _›
            subst_vars
            rfl
  | c :: d :: rest =>
    simp only [matchOpAt] at h
    split_ifs at h <;>
      first
        | exact Option.noConfusion h
        | · simp only [Option.some.injEq, Prod.mk.injEq] at h
            obtain ⟨rfl, rfl⟩ := h
            try obtain ⟨rfl, rfl⟩ := ‹_ = _ ∧ _ = _›
            subst_vars
            rfl

/-- C9: every WHERE predicate is split at its first comparison operator.
When `OP_RE.search` (embedded as `findOp`, which `parseCondition` uses to
split each predicate) finds an operator, the input decomposes as the prefix,
the operator token and the suffix; no operator alternative matches at any
earlier position; the alternative that matches at the split position is
searched in the order `!=, <=, >=, <, >, =`; and a split producing the bare
`<` or `>` is never immediately followed by `=` (so `<=`/`>=` are never split
as `<`/`>`). -/
theorem c9_operator_split (cs pre post : List Char) (op : Op)
    (h : findOp cs = some (pre, op, post)) :
    cs = pre ++ (opStr op).data ++ post ∧
    (∀ i, i < pre.length → matchOpAt (cs.drop i) = none) ∧
    matchOpAt (cs.drop pre.length) = some (op, post) ∧
    ((op = Op.lt ∨ op = Op.gt) → post.head? ≠ some '=') := by
  induction cs generalizing pre with
  | nil => simp [findOp] at h
  | cons c rest ih =>
    rw [findOp] at h
    cases hm : matchOpAt (c :: rest) with
    | some p =>
      rw [hm] at h
      obtain ⟨op0, after⟩ := p
      simp only [Option.some.injEq, Prod.mk.injEq] at h
      obtain ⟨rfl, rfl, rfl⟩ := h
      refine ⟨by simpa using matchOpAt_decomp _ _ _ hm, ?_,
        by simpa using hm, ?_⟩
      · intro i hi
        simp at hi
      · intro hops hpost
        have hcs := matchOpAt_decomp _ _ _ hm
        rcases hops with rfl | rfl
        · cases after with
          | nil => simp at hpost
          | cons p0 tl =>
            have hp : p0 = '=' := by simpa using hpost
            subst hp
            rw [hcs] at hm
            have hred : (opStr Op.lt).data ++ '=' :: tl = '<' :: '=' :: tl := rfl
            rw [hred] at hm
            simp [matchOpAt] at hm
        · cases after with
          | nil => simp at hpost
          | cons p0 tl =>
            have hp : p0 = '=' := by simpa using hpost
            subst hp
            rw [hcs] at hm
            have hred : (opStr Op.gt).data ++ '=' :: tl = '>' :: '=' :: tl := rfl
            rw [hred] at hm
            simp [matchOpAt] at hm
    | none =>
      rw [hm] at h
      cases hr : findOp rest with
      | none => rw [hr] at h; simp at h
      | some q =>
        rw [hr] at h
        obtain ⟨pre1, op1, post1⟩ := q
        simp only [Option.some.injEq, Prod.mk.injEq] at h
        obtain ⟨hpre, rfl, rfl⟩ := h
        obtain ⟨h1, h2, h3, h4⟩ := ih pre1 hr
        subst hpre
        refine ⟨by simpa using h1, ?_, by simpa using h3, h4⟩
        intro i hi
        match i with
        | 0 => simpa using hm
        | Nat.succ j =>
          simp only [List.drop_succ_cons]
          exact h2 j (by simpa using hi)

/-- The column loop appends exactly one column-map entry per column, in
declaration order, when no `Star` column is present. -/
theorem processColumns_map (main : String) (cols : List Column) (st : ColState)
    (h : ∀ c ∈ cols, c.kind ≠ ColumnKind.star) :
    (processColumns main st cols).columnMap =
      st.columnMap ++ cols.map (expectedColEntry main) := by
  induction cols generalizing st with
  | nil => simp [processColumns]
  | cons c cols ih =>
    have hc := h c (List.mem_cons_self c cols)
    have hrest : ∀ x ∈ cols, x.kind ≠ ColumnKind.star :=
      fun x hx => h x (List.mem_cons_of_mem c hx)
    show (processColumns main (processColumn main st c) cols).columnMap = _
    rw [ih (processColumn main st c) hrest]
    cases hk : c.kind with
    | star => exact absurd hk hc
    | item => simp [processColumn, expectedColEntry, hk]
    | item_qid => simp [processColumn, expectedColEntry, hk]
    | label => simp [processColumn, expectedColEntry, hk]
    | qid => simp [processColumn, expectedColEntry, hk]

/-- C4 (amended): when any `Star` column is present, the returned column map
is exactly the two synthesized `Star` entries (main variable mapped to
`item_qid`, its label variable to `item`) and the other declared columns
contribute no entries; when no `Star` column is present, the map has one
entry per declared column, in declaration order, under its alias or default
display name. -/
theorem c4_amended (q : WikiQuery) (lang : String) :
    (hasStar q = true →
      (compile_query q lang).1.column_map =
        [⟨table_var q.table, "item_qid"⟩,
         ⟨table_var q.table ++ "Label", "item"⟩]) ∧
    (hasStar q = false →
      (compile_query q lang).1.column_map =
        q.columns.map (expectedColEntry (table_var q.table))) := by
  have hc : (compile_query q lang).1.column_map =
      (compileParts q lang).columnMap := rfl
  constructor
  · intro hs
    rw [hc]
    simp only [compileParts, colStateOf, hs, if_true]
  · intro hs
    rw [hc]
    have hnostar : ∀ c ∈ q.columns, c.kind ≠ ColumnKind.star := by
      intro c hcm hk
      have : q.columns.any (fun c => c.kind = ColumnKind.star) = true :=
        List.any_eq_true.2 ⟨c, hcm, by simp [hk]⟩
      rw [hasStar] at hs
      rw [hs] at this
      exact Bool.false_ne_true this
    simp only [compileParts, colStateOf, hs]
    rw [if_neg (by simp [hs]),
      processColumns_map (table_var q.table) q.columns ⟨[], [], []⟩ hnostar]
    simp

/-- C4 (amended, witness): instantiation at `SELECT P17, * FROM Q1`
(star side) and at `SELECT P17 FROM Q1 t` (no-star side). -/
theorem c4_amended_witness :
    hasStar qLabelAndStar = true ∧
    (compile_query qLabelAndStar "en").1.column_map =
      [⟨table_var qLabelAndStar.table, "item_qid"⟩,
       ⟨table_var qLabelAndStar.table ++ "Label", "item"⟩] ∧
    hasStar qMainAliased = false ∧
    (compile_query qMainAliased "en").1.column_map =
      qMainAliased.columns.map (expectedColEntry (table_var qMainAliased.table)) := by
  refine ⟨rfl, ?_, rfl, ?_⟩
  · exact (c4_amended qLabelAndStar "en").1 rfl
  · exact (c4_amended qMainAliased "en").2 rfl

/-- Appending an element guarded by a membership check preserves
`Nodup`. -/
theorem nodup_guard_append (l : List String) (x : String) (h : l.Nodup) :
    (if x ∈ l then l else l ++ [x]).Nodup := by
  split_ifs with hx
  · exact h
  · simp [List.nodup_append, h, hx]

/-- The column loop keeps the selected variables duplicate-free as long as
every column is a property column (`Label`/`Qid`; `Star` columns leave the
state unchanged in this branch). -/
theorem processColumns_nodup (main : String) (cols : List Column) (st : ColState)
    (h : ∀ c ∈ cols, c.kind = ColumnKind.label ∨ c.kind = ColumnKind.qid ∨
      c.kind = ColumnKind.star)
    (hn : st.selectVars.Nodup) :
    (processColumns main st cols).selectVars.Nodup := by
  induction cols generalizing st with
  | nil => simpa [processColumns] using hn
  | cons c cols ih =>
    refine ih (processColumn main st c)
      (fun x hx => h x (List.mem_cons_of_mem c hx)) ?_
    rcases h c (List.mem_cons_self c cols) with hk | hk | hk
    · simp only [processColumn, hk]
      exact nodup_guard_append _ _ (nodup_guard_append _ _ hn)
    · simp only [processColumn, hk]
      exact nodup_guard_append _ _ hn
    · simpa [processColumn, hk] using hn

/-- C5 (amended): the compiled SELECT projection contains no duplicates for
every query whose columns are all property or `Star` columns: `Label`/`Qid`
variables are appended only after a membership check (and the `Star` branch
selects two distinct variables).  The guard is missing only for `Item` and
`ItemQid` columns, which can duplicate the main variable or its label
variable. -/
theorem c5_amended (q : WikiQuery) (lang : String)
    (h : ∀ c ∈ q.columns, c.kind ≠ ColumnKind.item ∧
      c.kind ≠ ColumnKind.item_qid) :
    ((compileParts q lang).selectVars).Nodup := by
  have hq : ("?" : String).length = 1 := rfl
  have hl : ("Label" : String).length = 5 := rfl
  cases hs : hasStar q with
  | true =>
    simp only [compileParts, colStateOf, hs, if_true]
    have hne : varS (table_var q.table) ≠ varS (table_var q.table ++ "Label") := by
      intro he
      have hlen := congrArg String.length he
      rw [varS, varS, String.length_append, String.length_append,
        String.length_append, hq, hl] at hlen
      omega
    simp [List.nodup_cons, hne]
  | false =>
    have hkinds : ∀ c ∈ q.columns, c.kind = ColumnKind.label ∨
        c.kind = ColumnKind.qid ∨ c.kind = ColumnKind.star := by
      intro c hcm
      have h2 := h c hcm
      cases hk : c.kind with
      | item => exact absurd hk h2.1
      | item_qid => exact absurd hk h2.2
      | label => exact Or.inl rfl
      | qid => exact Or.inr (Or.inl rfl)
      | star => exact Or.inr (Or.inr rfl)
    simp only [compileParts, colStateOf, hs]
    rw [if_neg (by simp [hs])]
    exact processColumns_nodup (table_var q.table) q.columns ⟨[], [], []⟩
      hkinds List.nodup_nil

/-- C5 (amended, witness): instantiation at the query
`SELECT P17_qid FROM Q1 WHERE P17_qid < 'Q5'` (a pure property-column
query). -/
theorem c5_amended_witness :
    (∀ c ∈ qQidLt.columns, c.kind ≠ ColumnKind.item ∧
      c.kind ≠ ColumnKind.item_qid) ∧
    ((compileParts qQidLt "en").selectVars).Nodup :=
  ⟨by decide, c5_amended qQidLt "en" (by decide)⟩

/-- `processJoin` only appends to the output lists; the appended output and
the resulting counter depend only on the incoming counter and the join
clause. -/
theorem processJoin_decomp (m : String) (st : JoinState) (j : JoinClause) :
    processJoin m st j =
      { counter := (processJoin m ⟨st.counter, [], [], []⟩ j).counter,
        triples := st.triples ++ (processJoin m ⟨st.counter, [], [], []⟩ j).triples,
        filters := st.filters ++ (processJoin m ⟨st.counter, [], [], []⟩ j).filters,
        joins := st.joins ++ (processJoin m ⟨st.counter, [], [], []⟩ j).joins } := by
  cases hj : j.table.alias_ <;> simp [processJoin, hj]

/-- Running the JOIN loop from accumulated state equals running it from the
bare counter and appending the results. -/
theorem processJoins_shift (m : String) (js : List JoinClause) (st : JoinState) :
    processJoins m st js =
      { counter := (runJoins m st.counter js).counter,
        triples := st.triples ++ (runJoins m st.counter js).triples,
        filters := st.filters ++ (runJoins m st.counter js).filters,
        joins := st.joins ++ (runJoins m st.counter js).joins } := by
  induction js generalizing st with
  | nil => simp [processJoins, runJoins]
  | cons j js ih =>
    show processJoins m (processJoin m st j) js = _
    rw [ih (processJoin m st j)]
    have h1 : runJoins m st.counter (j :: js) =
        processJoins m (processJoin m ⟨st.counter, [], [], []⟩ j) js := rfl
    rw [h1, ih (processJoin m ⟨st.counter, [], [], []⟩ j)]
    rw [processJoin_decomp m st j]
    simp [List.append_assoc]

/-- The join clause left behind by one `processJoin` step always carries an
alias, and reprocessing it from any counter reproduces exactly the same
emitted triples and filters. -/
theorem processJoin_realias (m : String) (c : Nat) (j : JoinClause) :
    ∃ j1 : JoinClause,
      (processJoin m ⟨c, [], [], []⟩ j).joins = [j1] ∧
      ∀ x : Nat,
        processJoin m ⟨x, [], [], []⟩ j1 =
          { counter := x,
            triples := (processJoin m ⟨c, [], [], []⟩ j).triples,
            filters := (processJoin m ⟨c, [], [], []⟩ j).filters,
            joins := [j1] } := by
  cases hj : j.table.alias_ with
  | some a =>
    refine ⟨j, ?_, ?_⟩
    · simp [processJoin, hj]
    · intro x
      simp [processJoin, hj]
  | none =>
    refine ⟨{ j with table :=
      { j.table with alias_ := some ("j" ++ toString (c + 1)) } }, ?_, ?_⟩
    · simp [processJoin, hj]
    · intro x
      simp [processJoin, hj]

/-- Re-running the JOIN loop on the joins it left behind reproduces exactly
the same triples, filters and joins, from any starting counter. -/
theorem runJoins_idem (m : String) (js : List JoinClause) (c c' : Nat) :
    runJoins m c' ((runJoins m c js).joins) =
      { counter := c',
        triples := (runJoins m c js).triples,
        filters := (runJoins m c js).filters,
        joins := (runJoins m c js).joins } := by
  induction js generalizing c c' with
  | nil => simp [runJoins, processJoins]
  | cons j js ih =>
    obtain ⟨j1, hj1, hstep⟩ := processJoin_realias m c j
    have h1 : runJoins m c (j :: js) =
        processJoins m (processJoin m ⟨c, [], [], []⟩ j) js := rfl
    rw [h1, processJoins_shift m js (processJoin m ⟨c, [], [], []⟩ j)]
    simp only [hj1, List.singleton_append]
    have h2 : runJoins m c'
        (j1 :: (runJoins m (processJoin m ⟨c, [], [], []⟩ j).counter js).joins) =
        processJoins m (processJoin m ⟨c', [], [], []⟩ j1)
          ((runJoins m (processJoin m ⟨c, [], [], []⟩ j).counter js).joins) := rfl
    rw [h2, hstep c',
      processJoins_shift m
        ((runJoins m (processJoin m ⟨c, [], [], []⟩ j).counter js).joins)
        ⟨c', (processJoin m ⟨c, [], [], []⟩ j).triples,
         (processJoin m ⟨c, [], [], []⟩ j).filters, [j1]⟩,
      ih (processJoin m ⟨c, [], [], []⟩ j).counter c']
    simp

/-- Recompiling the query left behind by `compileParts` (with synthetic join
aliases filled in) reproduces the same compilation parts. -/
theorem compileParts_idem (q : WikiQuery) (lang : String) :
    compileParts ((compileParts q lang).updatedQuery) lang =
      compileParts q lang := by
  have hup : (compileParts q lang).updatedQuery =
      { q with joins := (joinStateOf q).joins } := rfl
  have hjoin : joinStateOf { q with joins := (joinStateOf q).joins } =
      { counter := 0, triples := (joinStateOf q).triples,
        filters := (joinStateOf q).filters, joins := (joinStateOf q).joins } := by
    have hr : joinStateOf { q with joins := (joinStateOf q).joins } =
        runJoins (table_var q.table) 0
          ((runJoins (table_var q.table) 0 q.joins).joins) := rfl
    rw [hr, runJoins_idem]
    rfl
  rw [hup]
  unfold compileParts
  rw [hjoin]
  exact rfl

/-- C7: compiling the same IR value twice with the same language tag yields
identical SPARQL text and identical column maps: `compile_query` applied to
the query it left behind (whose unaliased join tables received synthetic
aliases `j1, j2, ...`) returns the same `SparqlResult` (and leaves the query
unchanged). -/
theorem c7_idempotent (q : WikiQuery) (lang : String) :
    compile_query ((compile_query q lang).2) lang = compile_query q lang := by
  have h2 : (compile_query q lang).2 = (compileParts q lang).updatedQuery := rfl
  rw [h2]
  have hord : (compileParts q lang).updatedQuery.order_by = q.order_by := rfl
  have hlim : (compileParts q lang).updatedQuery.limit = q.limit := rfl
  simp only [compile_query, compileParts_idem, hord, hlim]

/-- A property id `P<digits>` contains no space. -/
theorem isPid_no_space (cs : List Char) (h : isPidUpper cs = true) : ' ' ∉ cs := by
  rcases cs with _ | ⟨c, ds⟩
  · simp
  · simp only [isPidUpper, Bool.and_eq_true, decide_eq_true_eq,
      List.all_eq_true] at h
    obtain ⟨hc, _, hds⟩ := h
    intro hmem
    rcases List.mem_cons.1 hmem with h1 | h1
    · rw [hc] at h1
      exact absurd h1 (by decide)
    · exact absurd (hds _ h1) (by decide)

/-- A property id starts with `P`. -/
theorem isPid_head (cs : List Char) (h : isPidUpper cs = true) :
    ∃ ds, cs = 'P' :: ds := by
  rcases cs with _ | ⟨c, ds⟩
  · simp [isPidUpper] at h
  · simp only [isPidUpper, Bool.and_eq_true, decide_eq_true_eq] at h
    exact ⟨ds, by rw [h.1]⟩

/-- Two space-free tokens each followed by a space determine each other. -/
theorem token_split : ∀ (a b r s : List Char), ' ' ∉ a → ' ' ∉ b →
    a ++ ' ' :: r = b ++ ' ' :: s → a = b ∧ r = s
  | [], [], _, _, _, _, h => by simpa using h
  | [], y :: ys, _, _, _, hb, h => by
    simp only [List.nil_append, List.cons_append, List.cons.injEq] at h
    exact absurd (by rw [h.1]; exact List.mem_cons_self y ys) hb
  | x :: xs, [], _, _, ha, _, h => by
    simp only [List.cons_append, List.nil_append, List.cons.injEq] at h
    exact absurd (by rw [← h.1]; exact List.mem_cons_self x xs) ha
  | x :: xs, y :: ys, r, s, ha, hb, h => by
    simp only [List.cons_append, List.cons.injEq] at h
    obtain ⟨rfl, h2⟩ := h
    have ha2 : ' ' ∉ xs := fun hm => ha (List.mem_cons_of_mem x hm)
    have hb2 : ' ' ∉ ys := fun hm => hb (List.mem_cons_of_mem x hm)
    obtain ⟨h3, h4⟩ := token_split xs ys r s ha2 hb2 h2
    exact ⟨by rw [h3], h4⟩

/-- The required WHERE triple line determines the property id (on the
unaliased main table). -/
theorem condBindLine_inj (p q : String) (hp : isPidUpper p.data = true)
    (hq : isPidUpper q.data = true)
    (h : condBindLine "item" p = condBindLine "item" q) : p = q := by
  have hd := congrArg String.data h
  simp only [condBindLine, varS, prop_var, if_pos, String.data_append,
    List.append_assoc, List.append_cancel_left_eq, List.singleton_append,
    List.cons_append] at hd
  have := token_split p.data q.data _ _ (isPid_no_space _ hp)
    (isPid_no_space _ hq) (by simpa using hd)
  exact String.ext this.1

/-- The OPTIONAL line determines the property id (on the unaliased main
table). -/
theorem optLine_inj (p q : String) (hp : isPidUpper p.data = true)
    (hq : isPidUpper q.data = true)
    (h : optLine "item" p = optLine "item" q) : p = q := by
  have hd := congrArg String.data h
  simp only [optLine, varS, prop_var, if_pos, String.data_append,
    List.append_assoc, List.append_cancel_left_eq, List.singleton_append,
    List.cons_append] at hd
  have := token_split p.data q.data _ _ (isPid_no_space _ hp)
    (isPid_no_space _ hq) (by simpa using hd)
  exact String.ext this.1

/-- The `rdfs:label` lookup line is never a required WHERE triple line. -/
theorem condLabelLine_ne_bind (p q : String) (hp : isPidUpper p.data = true) :
    condLabelLine "item" p ≠ condBindLine "item" q := by
  intro h
  have hd := congrArg String.data h
  obtain ⟨ds, hds⟩ := isPid_head p.data hp
  simp only [condLabelLine, condBindLine, varS, prop_var, if_pos,
    String.data_append, List.append_assoc, List.append_cancel_left_eq,
    List.singleton_append, List.cons_append, hds] at hd
  simp at hd

/-- The language filter line is never a required WHERE triple line. -/
theorem condLangLine_ne_bind (p lang q : String) :
    condLangLine "item" p lang ≠ condBindLine "item" q := by
  intro h
  have hd := congrArg String.data h
  simp only [condLangLine, condBindLine, varS, prop_var, if_pos,
    String.data_append, List.append_assoc, List.append_cancel_left_eq,
    List.singleton_append, List.cons_append] at hd
  simp at hd

/-- The class-membership triple of the main table is never a required WHERE
triple line. -/
theorem mainTriple_ne_bind (prop qid p : String)
    (hprop : isPidUpper prop.data = true) (hp : isPidUpper p.data = true) :
    "  " ++ varS "item" ++ " wdt:" ++ prop ++ " wd:" ++ qid ++ " ." ≠
      condBindLine "item" p := by
  intro h
  have hd := congrArg String.data h
  simp only [condBindLine, varS, prop_var, if_pos, String.data_append,
    List.append_assoc, List.append_cancel_left_eq, List.singleton_append,
    List.cons_append] at hd
  have := token_split prop.data p.data _ _ (isPid_no_space _ hprop)
    (isPid_no_space _ hp) (by simpa using hd)
  simp at this

/-- The triples appended by one WHERE condition are `condLines`. -/
theorem processCondition_triples (m lang : String) (st : CondState)
    (c : Condition) :
    (processCondition m lang st c).triples = st.triples ++ condLines m lang c := by
  by_cases hb : c.is_qid_col = true
  · by_cases he : c.op = Op.eq
    · by_cases hq : (upperStr c.value).data.head? = some 'Q' <;>
        simp [processCondition, condLines, hb, he, hq]
    · by_cases hn : c.op = Op.neq
      · by_cases hq : (upperStr c.value).data.head? = some 'Q' <;>
          simp [processCondition, condLines, hb, he, hn, hq]
      · simp [processCondition, condLines, hb, he, hn]
  · simp [processCondition, condLines, hb]

/-- Every WHERE condition marks its property id as constrained. -/
theorem processCondition_constrained (m lang : String) (st : CondState)
    (c : Condition) :
    (processCondition m lang st c).constrained =
      addConstrained st.constrained c.pid := by
  by_cases hb : c.is_qid_col = true
  · by_cases he : c.op = Op.eq
    · by_cases hq : (upperStr c.value).data.head? = some 'Q' <;>
        simp [processCondition, hb, he, hq]
    · by_cases hn : c.op = Op.neq
      · by_cases hq : (upperStr c.value).data.head? = some 'Q' <;>
          simp [processCondition, hb, he, hn, hq]
      · simp [processCondition, hb, he, hn]
  · simp [processCondition, hb]

/-- Every WHERE condition registers its property id as needed. -/
theorem processCondition_needed (m lang : String) (st : CondState)
    (c : Condition) :
    (processCondition m lang st c).needed = ensureProp st.needed c.pid m := by
  by_cases hb : c.is_qid_col = true
  · by_cases he : c.op = Op.eq
    · by_cases hq : (upperStr c.value).data.head? = some 'Q' <;>
        simp [processCondition, hb, he, hq]
    · by_cases hn : c.op = Op.neq
      · by_cases hq : (upperStr c.value).data.head? = some 'Q' <;>
          simp [processCondition, hb, he, hn, hq]
      · simp [processCondition, hb, he, hn]
  · simp [processCondition, hb]

/-- The WHERE loop appends the concatenation of each condition's lines. -/
theorem processConditions_triples (m lang : String) (conds : List Condition)
    (st : CondState) :
    (processConditions m lang st conds).triples =
      st.triples ++ conds.flatMap (condLines m lang) := by
  induction conds generalizing st with
  | nil => simp [processConditions]
  | cons c cs ih =>
    show (processConditions m lang (processCondition m lang st c) cs).triples = _
    rw [ih (processCondition m lang st c), processCondition_triples]
    simp

/-- Membership in `addConstrained`. -/
theorem mem_addConstrained (l : List String) (x p : String) :
    p ∈ addConstrained l x ↔ p ∈ l ∨ p = x := by
  unfold addConstrained
  split_ifs with h
  · constructor
    · exact Or.inl
    · rintro (h1 | rfl)
      · exact h1
      · exact h
  · simp [List.mem_append]

/-- The constrained set after the WHERE loop is exactly the condition
property ids (plus whatever was constrained before). -/
theorem processConditions_constrained_mem (m lang : String)
    (conds : List Condition) (st : CondState) (p : String) :
    p ∈ (processConditions m lang st conds).constrained ↔
      p ∈ st.constrained ∨ ∃ c ∈ conds, c.pid = p := by
  induction conds generalizing st with
  | nil => simp [processConditions]
  | cons c cs ih =>
    show p ∈ (processConditions m lang (processCondition m lang st c) cs).constrained ↔ _
    rw [ih (processCondition m lang st c), processCondition_constrained,
      mem_addConstrained]
    simp only [List.mem_cons]
    constructor
    · rintro ((h1 | h1) | ⟨x, hx, h1⟩)
      · exact Or.inl h1
      · exact Or.inr ⟨c, Or.inl rfl, h1.symm⟩
      · exact Or.inr ⟨x, Or.inr hx, h1⟩
    · rintro (h1 | ⟨x, (rfl | hx), h1⟩)
      · exact Or.inl (Or.inl h1)
      · exact Or.inl (Or.inr h1.symm)
      · exact Or.inr ⟨x, hx, h1⟩

/-- Well-formedness of the needed-properties table: all entries live on the
given table variable, keys are `{tvar}.{pid}`, pids are well-formed, and
keys are distinct. -/
def NeededGood (main : String) (np : NeededProps) : Prop :=
  (∀ e ∈ np, e.2.2 = main ∧ e.1 = main ++ "." ++ e.2.1 ∧
    isPidUpper e.2.1.data = true) ∧
  (np.map Prod.fst).Nodup

/-- `ensureProp` preserves well-formedness. -/
theorem ensureProp_good (main p : String) (np : NeededProps)
    (hp : isPidUpper p.data = true) (h : NeededGood main np) :
    NeededGood main (ensureProp np p main) := by
  unfold ensureProp
  dsimp only
  split_ifs with hk
  · exact h
  · constructor
    · intro e he
      rcases List.mem_append.1 he with h1 | h1
      · exact h.1 e h1
      · simp only [List.mem_singleton] at h1
        subst h1
        exact ⟨rfl, rfl, hp⟩
    · have hkey : (main ++ "." ++ p) ∉ np.map Prod.fst := by
        intro hmem
        obtain ⟨e, he, hek⟩ := List.mem_map.1 hmem
        exact hk (List.any_eq_true.2 ⟨e, he, by simp [hek]⟩)
      rw [List.map_append]
      simp [List.nodup_append, h.2, hkey]

/-- One column-loop step preserves well-formedness of the needed table. -/
theorem processColumn_needed_good (main : String) (st : ColState) (c : Column)
    (hc : (c.kind = ColumnKind.label ∨ c.kind = ColumnKind.qid) →
      isPidUpper (colPid c).data = true)
    (h : NeededGood main st.needed) :
    NeededGood main (processColumn main st c).needed := by
  cases hk : c.kind with
  | star => simpa [processColumn, hk] using h
  | item => simpa [processColumn, hk] using h
  | item_qid => simpa [processColumn, hk] using h
  | label =>
    have := ensureProp_good main (colPid c) st.needed (hc (Or.inl hk)) h
    simpa [processColumn, hk] using this
  | qid =>
    have := ensureProp_good main (colPid c) st.needed (hc (Or.inr hk)) h
    simpa [processColumn, hk] using this

/-- The column loop preserves well-formedness of the needed table. -/
theorem processColumns_needed_good (main : String) (cols : List Column)
    (st : ColState)
    (hc : ∀ c ∈ cols, (c.kind = ColumnKind.label ∨ c.kind = ColumnKind.qid) →
      isPidUpper (colPid c).data = true)
    (h : NeededGood main st.needed) :
    NeededGood main (processColumns main st cols).needed := by
  induction cols generalizing st with
  | nil => simpa [processColumns] using h
  | cons c cs ih =>
    exact ih (processColumn main st c)
      (fun x hx => hc x (List.mem_cons_of_mem c hx))
      (processColumn_needed_good main st c (hc c (List.mem_cons_self c cs)) h)

/-- The WHERE loop preserves well-formedness of the needed table. -/
theorem processConditions_needed_good (main lang : String)
    (conds : List Condition) (st : CondState)
    (hc : ∀ c ∈ conds, isPidUpper c.pid.data = true)
    (h : NeededGood main st.needed) :
    NeededGood main (processConditions main lang st conds).needed := by
  induction conds generalizing st with
  | nil => simpa [processConditions] using h
  | cons c cs ih =>
    refine ih (processCondition main lang st c)
      (fun x hx => hc x (List.mem_cons_of_mem c hx)) ?_
    rw [processCondition_needed]
    exact ensureProp_good main c.pid st.needed (hc c (List.mem_cons_self c cs)) h

/-- Worker characterisation of the OPTIONAL-building fold: with distinct
keys the `seen` check never fires, so the fold is a filter-map. -/
theorem buildOptAux (constrained : List String) :
    ∀ (np : NeededProps) (seen out : List String),
      (∀ e ∈ np, e.1 ∉ seen) → (np.map Prod.fst).Nodup →
      (np.foldl
        (fun (acc : List String × List String) e =>
          if e.1 ∈ acc.1 then acc
          else
            (acc.1 ++ [e.1],
             if e.2.1 ∈ constrained then acc.2
             else acc.2 ++ [optLine e.2.2 e.2.1]))
        (seen, out)).2 =
      out ++ (np.filter (fun e => !decide (e.2.1 ∈ constrained))).map
        (fun e => optLine e.2.2 e.2.1)
  | [], _, out, _, _ => by simp
  | e :: np, seen, out, hseen, hnodup => by
    have he1 : e.1 ∉ seen := hseen e (List.mem_cons_self e np)
    have hfst : e.1 ∉ np.map Prod.fst :=
      (List.nodup_cons.1 (by simpa using hnodup)).1
    have hseen2 : ∀ x ∈ np, x.1 ∉ seen ++ [e.1] := by
      intro x hx
      simp only [List.mem_append, List.mem_singleton]
      rintro (hmem | hmem)
      · exact hseen x (List.mem_cons_of_mem e hx) hmem
      · exact hfst (hmem ▸ List.mem_map_of_mem Prod.fst hx)
    have hnodup2 : (np.map Prod.fst).Nodup :=
      (List.nodup_cons.1 (by simpa using hnodup)).2
    rw [List.foldl_cons, if_neg he1]
    by_cases hcst : e.2.1 ∈ constrained
    · rw [if_pos hcst,
        buildOptAux constrained np (seen ++ [e.1]) out hseen2 hnodup2]
      simp [List.filter_cons, hcst]
    · rw [if_neg hcst,
        buildOptAux constrained np (seen ++ [e.1])
          (out ++ [optLine e.2.2 e.2.1]) hseen2 hnodup2]
      simp [List.filter_cons, hcst]

/-- With distinct keys, `buildOptionals` is the filter-map over the
unconstrained needed properties. -/
theorem buildOptionals_eq (np : NeededProps) (constrained : List String)
    (h : (np.map Prod.fst).Nodup) :
    buildOptionals np constrained =
      (np.filter (fun e => !decide (e.2.1 ∈ constrained))).map
        (fun e => optLine e.2.2 e.2.1) := by
  unfold buildOptionals
  exact buildOptAux constrained np [] [] (by simp) h

/-- Unfolding of `condWeight` over a first condition. -/
theorem condWeight_cons (c : Condition) (cs : List Condition) (pid : String) :
    condWeight (c :: cs) pid =
      (if c.pid = pid ∧ condEmitsTriple c = true then 1 else 0) +
        condWeight cs pid := by
  unfold condWeight
  rw [List.filter_cons]
  by_cases h : c.pid = pid ∧ condEmitsTriple c = true
  · rw [if_pos (by simp [h.1, h.2]), if_pos h]
    simp [Nat.add_comm]
  · rw [if_neg (by simpa [Bool.and_eq_true, decide_eq_true_eq] using h), if_neg h]
    simp

/-- The number of occurrences of a given required-triple line among the
lines of one WHERE condition. -/
theorem count_condLines (lang pid : String) (c : Condition)
    (hpid : isPidUpper pid.data = true)
    (hcpid : isPidUpper c.pid.data = true) :
    (condLines "item" lang c).count (condBindLine "item" pid) =
      (if c.pid = pid ∧ condEmitsTriple c = true then 1 else 0) := by
  have hbind : ∀ p : String, isPidUpper p.data = true → p ≠ pid →
      (condBindLine "item" p == condBindLine "item" pid) = false := by
    intro p hp hne
    rw [beq_eq_false_iff_ne]
    exact fun he => hne (condBindLine_inj p pid hp hpid he)
  unfold condLines condEmitsTriple
  by_cases hb : c.is_qid_col = true
  · by_cases ho : c.op = Op.eq ∨ c.op = Op.neq
    · simp only [hb, if_true, ho]
      by_cases hp : c.pid = pid
      · subst hp
        simp [List.count_cons, ho]
      · simp [List.count_cons, hbind c.pid hcpid hp, hp]
    · simp [hb, ho]
  · simp only [hb]
    by_cases hp : c.pid = pid
    · subst hp
      simp [List.count_cons,
        beq_eq_false_iff_ne.2 (condLabelLine_ne_bind c.pid c.pid hcpid),
        beq_eq_false_iff_ne.2 (condLangLine_ne_bind c.pid lang c.pid), hb]
    · simp [List.count_cons, hbind c.pid hcpid hp,
        beq_eq_false_iff_ne.2 (condLabelLine_ne_bind c.pid pid hcpid),
        beq_eq_false_iff_ne.2 (condLangLine_ne_bind c.pid lang pid), hp, hb]

/-- The total number of required-triple lines for a property across the
WHERE loop equals its weight. -/
theorem count_condTriples (lang pid : String) (conds : List Condition)
    (hpid : isPidUpper pid.data = true)
    (hconds : ∀ c ∈ conds, isPidUpper c.pid.data = true) :
    (conds.flatMap (condLines "item" lang)).count (condBindLine "item" pid) =
      condWeight conds pid := by
  induction conds with
  | nil => simp [condWeight]
  | cons c cs ih =>
    rw [List.flatMap_cons, List.count_append,
      count_condLines lang pid c hpid (hconds c (List.mem_cons_self c cs)),
      ih (fun x hx => hconds x (List.mem_cons_of_mem c hx)),
      condWeight_cons]

/-- Counting a given OPTIONAL line over the filter-map: one occurrence per
matching pid, hence exactly one under distinctness. -/
theorem count_optLine_map (pid : String) (hpid : isPidUpper pid.data = true) :
    ∀ l : NeededProps,
      (∀ e ∈ l, e.2.2 = "item" ∧ isPidUpper e.2.1.data = true) →
      (l.map (fun e => e.2.1)).Nodup →
      (l.map (fun e => optLine e.2.2 e.2.1)).count (optLine "item" pid) =
        (if pid ∈ l.map (fun e => e.2.1) then 1 else 0)
  | [], _, _ => by simp
  | e :: l, hgood, hnodup => by
    have hge := hgood e (List.mem_cons_self e l)
    rw [List.map_cons] at hnodup
    have hnd := List.nodup_cons.1 hnodup
    have ihl := count_optLine_map pid hpid l
      (fun x hx => hgood x (List.mem_cons_of_mem e hx)) hnd.2
    rw [List.map_cons, List.count_cons, ihl, hge.1]
    by_cases hp : e.2.1 = pid
    · have hnotin : pid ∉ l.map (fun e => e.2.1) := hp ▸ hnd.1
      rw [hp]
      simp [hnotin, hp]
    · have hne : (optLine "item" e.2.1 == optLine "item" pid) = false := by
        rw [beq_eq_false_iff_ne]
        exact fun he => hp (optLine_inj e.2.1 pid hge.2 hpid he)
      have hp2 : ¬ pid = e.2.1 := fun h => hp h.symm
      by_cases hm : pid ∈ l.map (fun e => e.2.1) <;>
        simp [hne, List.mem_cons, hp2, hm]

/-- Distinct keys force distinct pids in a well-formed needed table. -/
theorem pids_nodup_of_good (main : String) : ∀ np : NeededProps,
    NeededGood main np → (np.map (fun e => e.2.1)).Nodup
  | [], _ => by simp
  | e :: np, h => by
    have h2 := h.2
    rw [List.map_cons] at h2
    have hnd := List.nodup_cons.1 h2
    rw [List.map_cons]
    refine List.nodup_cons.2 ⟨?_, pids_nodup_of_good main np
      ⟨fun x hx => h.1 x (List.mem_cons_of_mem e hx), hnd.2⟩⟩
    intro hmem
    obtain ⟨x, hx, hxpid⟩ := List.mem_map.1 hmem
    apply hnd.1
    have hex := h.1 x (List.mem_cons_of_mem e hx)
    have hee := h.1 e (List.mem_cons_self e np)
    rw [List.mem_map]
    exact ⟨x, hx, by rw [hex.2.1, hxpid, ← hee.2.1]⟩

/-- C6 (amended): on a join-free query over the unaliased main table, every
property needed for column selection that is not constrained by a WHERE
condition is emitted as exactly one OPTIONAL triple; a property that is
WHERE-constrained gets no OPTIONAL triple, and the number of required
`wdt:` triples emitted for it equals the number of its conditions that emit
a triple (all label comparisons and the `=`/`!=` QID-column comparisons) —
in particular zero, not one, when its only condition is a QID-column
comparison with `<`, `>`, `<=` or `>=`. -/
theorem c6_amended (q : WikiQuery) (lang pid : String)
    (halias : q.table.alias_ = none)
    (hjoins : q.joins = [])
    (hprop : isPidUpper q.table.property.data = true)
    (hpid : isPidUpper pid.data = true)
    (hconds : ∀ c ∈ q.conditions, isPidUpper c.pid.data = true)
    (hcols : ∀ c ∈ q.columns,
      (c.kind = ColumnKind.label ∨ c.kind = ColumnKind.qid) →
        isPidUpper (colPid c).data = true) :
    ((∃ e ∈ (compileParts q lang).needed, e.2.1 = pid) →
      pid ∉ (compileParts q lang).constrained →
      (compileParts q lang).optionals.count (optLine "item" pid) = 1) ∧
    (pid ∈ (compileParts q lang).constrained →
      optLine "item" pid ∉ (compileParts q lang).optionals ∧
      (compileParts q lang).triples.count (condBindLine "item" pid) =
        condWeight q.conditions pid) := by
  have hmain : table_var q.table = "item" := by simp [table_var, halias]
  have hcolgood : NeededGood "item" (colStateOf q).needed := by
    unfold colStateOf
    split_ifs with hs
    · exact ⟨by simp, by simp⟩
    · rw [hmain]
      exact processColumns_needed_good "item" q.columns ⟨[], [], []⟩ hcols
        ⟨by simp, by simp⟩
  have hcondgood : NeededGood "item" (condStateOf q lang).needed := by
    unfold condStateOf
    rw [hmain]
    exact processConditions_needed_good "item" lang q.conditions _ hconds hcolgood
  have hkeys : ((condStateOf q lang).needed.map Prod.fst).Nodup := hcondgood.2
  have hneed : (compileParts q lang).needed = (condStateOf q lang).needed := rfl
  have hcons : (compileParts q lang).constrained =
      (condStateOf q lang).constrained := rfl
  have hopt : (compileParts q lang).optionals =
      buildOptionals (condStateOf q lang).needed
        (condStateOf q lang).constrained := rfl
  have htriples : (compileParts q lang).triples =
      [mainTripleOf q] ++ (joinStateOf q).triples ++
        (condStateOf q lang).triples := rfl
  have htrip : (condStateOf q lang).triples =
      q.conditions.flatMap (condLines "item" lang) := by
    unfold condStateOf
    rw [hmain, processConditions_triples]
    simp
  have hjtrip : (joinStateOf q).triples = [] := by
    unfold joinStateOf
    rw [hjoins]
    rfl
  constructor
  · rintro ⟨e, he, hepid⟩ hnc
    rw [hneed] at he
    rw [hcons] at hnc
    rw [hopt, buildOptionals_eq _ _ hkeys]
    have hfilt : ∀ x ∈ (condStateOf q lang).needed.filter
        (fun e => !decide (e.2.1 ∈ (condStateOf q lang).constrained)),
        x.2.2 = "item" ∧ isPidUpper x.2.1.data = true := by
      intro x hx
      have hxg := hcondgood.1 x (List.mem_filter.1 hx).1
      exact ⟨hxg.1, hxg.2.2⟩
    have hfnodup : (((condStateOf q lang).needed.filter
        (fun e => !decide (e.2.1 ∈ (condStateOf q lang).constrained))).map
          (fun e => e.2.1)).Nodup :=
      ((List.filter_sublist _).map _).nodup
        (pids_nodup_of_good "item" _ hcondgood)
    rw [count_optLine_map pid hpid _ hfilt hfnodup, if_pos]
    rw [List.mem_map]
    refine ⟨e, List.mem_filter.2 ⟨he, ?_⟩, hepid⟩
    rw [hepid]
    simpa using hnc
  · intro hp
    rw [hcons] at hp
    constructor
    · rw [hopt, buildOptionals_eq _ _ hkeys]
      intro hmem
      obtain ⟨e, hef, heq⟩ := List.mem_map.1 hmem
      have hef2 := List.mem_filter.1 hef
      have hegood := hcondgood.1 e hef2.1
      rw [hegood.1] at heq
      have hepid := optLine_inj e.2.1 pid hegood.2.2 hpid heq
      have hng := hef2.2
      rw [hepid] at hng
      simp at hng
      exact hng hp
    · rw [htriples, hjtrip, htrip]
      have hm0 : List.count (condBindLine "item" pid) [mainTripleOf q] = 0 := by
        have hne := mainTriple_ne_bind q.table.property q.table.qid pid hprop hpid
        rw [mainTripleOf, hmain]
        simp [List.count_cons, beq_eq_false_iff_ne.2 hne]
      rw [List.count_append, List.count_append, hm0,
        count_condTriples lang pid q.conditions hpid hconds]
      simp

/-- C6 (counterexample): the property `P17` is referenced both by a SELECT
column and by a WHERE condition (`P17_qid >= 'Q5'`, reachable from `parse`),
yet the compiled SPARQL contains no triple at all for it: the OPTIONAL is
suppressed (the pid is marked constrained) but the `>=` QID comparison emits
no required triple, contradicting the claimed exactly-one triple. -/
theorem c6_counterexample :
    parse "SELECT P17 FROM Q1 WHERE P17_qid >= \x27Q5\x27" =
      Except.ok qQidGe ∧
    (compileParts qQidGe "en").triples = ["  ?item wdt:P31 wd:Q1 ."] ∧
    (compileParts qQidGe "en").optionals = [] ∧
    (compileParts qQidGe "en").triples.count (condBindLine "item" "P17") = 0 :=
  ⟨rfl, rfl, rfl, rfl⟩

/-- C6 (amended, witness): instantiation at the query
`SELECT P17_qid FROM Q1 WHERE P17_qid < 'Q5'` and property `P17`: the
property is WHERE-constrained, gets no OPTIONAL triple, and its required
triple count equals its weight (which is zero here). -/
theorem c6_amended_witness :
    ("P17" ∈ (compileParts qQidLt "en").constrained) ∧
    optLine "item" "P17" ∉ (compileParts qQidLt "en").optionals ∧
    (compileParts qQidLt "en").triples.count (condBindLine "item" "P17") =
      condWeight qQidLt.conditions "P17" := by
  have hmem : "P17" ∈ (compileParts qQidLt "en").constrained := by decide
  have h := (c6_amended qQidLt "en" "P17" rfl rfl (by decide) (by decide)
    (by decide) (by decide)).2 hmem
  exact ⟨hmem, h.1, h.2⟩

/-- C9 (witness): instantiation at the predicate `P17 <= 'x'`: the split is
at the `<=`, producing the operator `<=` and not the bare `<`. -/
theorem c9_witness :
    findOp (String.data "P17 <= \x27x\x27") =
      some (String.data "P17 ", Op.lte, String.data " \x27x\x27") ∧
    String.data "P17 <= \x27x\x27" =
      String.data "P17 " ++ (opStr Op.lte).data ++ String.data " \x27x\x27" := by
  have h : findOp (String.data "P17 <= \x27x\x27") =
      some (String.data "P17 ", Op.lte, String.data " \x27x\x27") := rfl
  exact ⟨h, (c9_operator_split _ _ _ _ h).1⟩

end WikiSql
